import Mathlib

/-!
# Verification of `lib/client-stream.js`

A shallow embedding of the `StreamHandler` class and of the `stream` entry
point of `src/lib/client-stream.js`.

* JavaScript values are the datatype `Val`; truthiness, `typeof` and property
  reads follow the language.
* A handler method is a function from the handler's fields (and the answers
  of the code it calls) to an `Outcome`: the fields after the method, the
  calls it made on its collaborators, in order, and the value it threw, if
  any.  Assignments made before a `throw` stay in the outcome.
* The collaborators (`util.destroy`, `finished`, `process.nextTick`, the sink,
  the flow controller, the callback, `client.dispatch`) are not in the file;
  each call to one of them is recorded as an `Effect`.  Their answers that
  the code reads (what the factory returns or throws, what `write` returns,
  the sink's `readable` property, whether `dispatch` throws) are arguments.
* Events reach a handler one after the other (`deliver`, `run`).  One call
  back into the handler from inside a method is part of the model: the abort
  while the factory runs, which line 51 of the source provides for.
* The functions the transport passes to `onConnect` are functions
  (`Controller`); the other values are arbitrary, and calling one that is not
  a function throws a `TypeError`.
-/

namespace ClientStream

/-! ## JavaScript values -/

/-- The error classes the file constructs, and `TypeError` for the faults of
the language itself (reading a property of `null`, calling a non-function). -/
inductive ErrorClass where
  | InvalidArgumentError
  | InvalidReturnValueError
  | TypeError
  deriving DecidableEq, Repr

/-- Result of the `typeof` operator. -/
inductive JsType where
  | undefined
  | object
  | boolean
  | number
  | string
  | function
  deriving DecidableEq, Repr

/-- JavaScript values.  `fn id` is a function supplied from outside, `settle`
is the arrow function `(err, data) => err ? reject(err) : resolve(data)` that
`stream` creates in its promise branch, `error` is an error object. -/
inductive Val where
  | undefined
  | null
  | bool (b : Bool)
  | num (n : Int)
  | nan
  | str (s : String)
  | fn (id : Nat)
  | settle
  | error (cls : ErrorClass) (message : String)
  | obj (props : List (String × Val))
  deriving Repr

namespace Val

/-- Truthiness, as tested by `!v`, `v || w`, `if (v)` and `v ? a : b`. -/
def truthy : Val → Bool
  | undefined => false
  | null => false
  | bool b => b
  | num n => n != 0
  | nan => false
  | str s => s != ""
  | fn _ => true
  | settle => true
  | error _ _ => true
  | obj _ => true

/-- The `typeof` operator. -/
def typeof : Val → JsType
  | undefined => .undefined
  | null => .object
  | bool _ => .boolean
  | num _ => .number
  | nan => .number
  | str _ => .string
  | fn _ => .function
  | settle => .function
  | error _ _ => .object
  | obj _ => .object

/-- The test `typeof v === 'function'`. -/
def isFunction (v : Val) : Bool :=
  v.typeof == .function

/-- The `TypeError` of the language. -/
def typeError : Val :=
  .error .TypeError "TypeError"

/-- Property read `v.key`.  It throws a `TypeError` on `null` and `undefined`;
a property that is not there reads as `undefined`. -/
def get (v : Val) (key : String) : Except Val Val :=
  match v with
  | undefined => .error typeError
  | null => .error typeError
  | obj props => .ok ((props.lookup key).getD undefined)
  | error _ message => .ok (if key == "message" then str message else undefined)
  | _ => .ok undefined

/-- The comparison `v === s` against a string literal. -/
def strictEqStr (v : Val) (s : String) : Bool :=
  match v with
  | str t => t == s
  | _ => false

end Val

/-! ## The handler -/

/-- The object `{ pause, resume, error }` built by `onConnect`; the transport
passes three functions, named here by their identifiers. -/
structure Controller where
  pause : Nat
  resume : Nat
  error : Nat
  deriving Repr

/-- Fields of a `StreamHandler` (constructor, lines 27-32).  `controller` is
`none` for `null`. -/
structure StreamHandler where
  opaqueValue : Val
  controller : Option Controller
  factory : Val
  callback : Val
  res : Val
  trailers : Val
  deriving Repr

/-- Calls made on the collaborators. -/
inductive Effect where
  /-- The call `this.runInAsyncScope(factory, null, arg)` -/
  | factory (f : Val) (arg : Val)
  /-- The call `res.on(event, listener)` -/
  | on (sink : Val) (event : String) (listener : Val)
  /-- The call `finished(res, { readable: false }, cb)` -/
  | finished (sink : Val)
  /-- The call `res.destroy = this.runInAsyncScope.bind(this, res.destroy, res)` -/
  | wrapDestroy (sink : Val)
  /-- The call `this.runInAsyncScope(res.write, res, chunk)` -/
  | write (sink : Val) (chunk : Val)
  /-- The call `this.runInAsyncScope(res.end, res)` -/
  | endSink (sink : Val)
  /-- The call `util.destroy(stream, err)` -/
  | destroy (stream : Val) (err : Val)
  /-- The call `controller.pause()` -/
  | pause (f : Nat)
  /-- The call `controller.resume()` made by a method of the handler -/
  | resume (f : Nat)
  /-- The call of the function `f` registered with `res.on('drain', f)`, made by
  the sink's emitter on a drain notification -/
  | listener (f : Nat)
  /-- The call `controller.error(err)` -/
  | signalError (f : Nat) (err : Val)
  /-- The call `callback(err, data)` -/
  | callback (cb : Val) (err : Val) (data : Val)
  /-- The call `process.nextTick(callback, err, data)` -/
  | nextTick (cb : Val) (err : Val) (data : Val)
  /-- The call `client.dispatch(opts, handler)` -/
  | dispatch (client : Val) (opts : Val) (handler : StreamHandler)
  deriving Repr

/-- What a method leaves behind: the fields, the calls made, the value thrown. -/
structure Outcome where
  handler : StreamHandler
  effects : List Effect
  thrown : Option Val
  deriving Repr

/-- The value `new InvalidArgumentError(message)` -/
def invalidArgument (message : String) : Val :=
  .error .InvalidArgumentError message

/-- The value `new InvalidReturnValueError(message)` -/
def invalidReturnValue (message : String) : Val :=
  .error .InvalidReturnValueError message

/-- The constructor (lines 12-33). -/
def StreamHandler.new (opts factory callback : Val) : Except Val StreamHandler :=
  if !opts.truthy || opts.typeof != .object then
    .error (invalidArgument "invalid opts")
  else if factory.typeof != .function then
    .error (invalidArgument "invalid factory")
  else
    match opts.get "method", opts.get "opaque" with
    | .ok method, .ok opq =>
      if method.strictEqStr "CONNECT" then
        .error (invalidArgument "invalid method")
      else
        .ok { opaqueValue := opq, controller := none, factory := factory,
              callback := callback, res := .null, trailers := .null }
    | .error e, _ => .error e
    | _, .error e => .error e

/-- The method `onConnect (pause, resume, error)` (lines 35-37). -/
def onConnect (h : StreamHandler) (c : Controller) : Outcome :=
  ⟨{ h with controller := some c }, [], none⟩

/-- The method `onError (err)` (lines 105-118). -/
def onError (h : StreamHandler) (err : Val) : Outcome :=
  let res := h.res
  let callback := h.callback
  let h1 := { h with factory := .null }
  if res.truthy then
    ⟨{ h1 with res := .null }, [.destroy res err], none⟩
  else if callback.truthy then
    let h2 := { h1 with callback := .null }
    if callback.isFunction then
      ⟨h2, [.nextTick callback err .null], none⟩
    else
      ⟨h2, [], some Val.typeError⟩
  else
    ⟨h1, [], none⟩

/-- What happens while the factory runs: it may abort the exchange, which
reaches the handler as `onError(err)` before the factory is back (the case the
comment at line 52 names), and it either returns a value or throws one. -/
structure FactoryRun where
  abort : Option Val
  result : Except Val Val

/-- The handler and the calls after the factory ran, before line 49. -/
def duringFactory (h : StreamHandler) (run : FactoryRun) : StreamHandler × List Effect :=
  match run.abort with
  | none => (h, [])
  | some err => ((onError h err).handler, (onError h err).effects)

/-- The test of lines 56-61 on the factory's result. -/
def badSink (res : Val) : Bool :=
  !res.truthy ||
    match res.get "write", res.get "end", res.get "on" with
    | .ok w, .ok e, .ok o => !w.isFunction || !e.isFunction || !o.isFunction
    | _, _, _ => true

/-- The test `typeof res.destroy === 'function'` of line 83. -/
def hasDestroy (res : Val) : Bool :=
  match res.get "destroy" with
  | .ok d => d.isFunction
  | .error _ => false

/-- The method `onHeaders (statusCode, headers)` (lines 39-88). -/
def onHeaders (h : StreamHandler) (statusCode : Nat) (headers : Val) (run : FactoryRun) :
    Outcome :=
  if statusCode < 200 then
    ⟨h, [], none⟩
  else
    let factory := h.factory
    let controller := h.controller
    let opq := h.opaqueValue
    let h1 := { h with factory := .null }
    if !factory.isFunction then
      ⟨h1, [], some Val.typeError⟩
    else
      let arg := Val.obj [("statusCode", .num statusCode), ("headers", headers), ("opaque", opq)]
      let h2 := (duringFactory h1 run).1
      let e2 := Effect.factory factory arg :: (duringFactory h1 run).2
      match run.result with
      | .error ex => ⟨h2, e2, some ex⟩
      | .ok res =>
        let callback := h2.callback
        if !callback.truthy then
          ⟨h2, e2, none⟩
        else if badSink res then
          ⟨h2, e2, some (invalidReturnValue "expected Writable")⟩
        else
          match controller with
          | none => ⟨h2, e2, some Val.typeError⟩
          | some c =>
            ⟨{ h2 with res := res },
              e2 ++ [.on res "drain" (.fn c.resume), .finished res] ++
                (if hasDestroy res then [.wrapDestroy res] else []),
              none⟩

/-- The method `onData (chunk)` (lines 90-96); `written` is what `res.write` returned. -/
def onData (h : StreamHandler) (chunk : Val) (written : Val) : Outcome :=
  let res := h.res
  let controller := h.controller
  match res.get "write" with
  | .error e => ⟨h, [], some e⟩
  | .ok w =>
    if !w.isFunction then
      ⟨h, [], some Val.typeError⟩
    else if !written.truthy then
      match controller with
      | none => ⟨h, [.write res chunk], some Val.typeError⟩
      | some c => ⟨h, [.write res chunk, .pause c.pause], none⟩
    else
      ⟨h, [.write res chunk], none⟩

/-- The method `onComplete (trailers)` (lines 98-103). -/
def onComplete (h : StreamHandler) (trailers : Val) : Outcome :=
  let res := h.res
  let h1 := { h with trailers := if trailers.truthy then trailers else .obj [] }
  match res.get "end" with
  | .error e => ⟨h1, [], some e⟩
  | .ok f =>
    if !f.isFunction then
      ⟨h1, [], some Val.typeError⟩
    else
      ⟨h1, [.endSink res], none⟩

/-- The callback passed to `finished` (lines 67-81), the Finalize routine.
`err` is the argument of the notification, `readable` is what `res.readable`
reads when the routine looks at it. -/
def finalize (h : StreamHandler) (err : Val) (readable : Val) : Outcome :=
  let callback := h.callback
  let res := h.res
  let opq := h.opaqueValue
  let controller := h.controller
  let trailers := h.trailers
  let h1 := { h with res := .null }
  let h2 := { h1 with callback := .null }
  let data := if err.truthy then Val.null else Val.obj [("opaque", opq), ("trailers", trailers)]
  if err.truthy then
    match controller with
    | none => ⟨h1, [.destroy res res], some Val.typeError⟩
    | some c =>
      if callback.isFunction then
        ⟨h2, [.destroy res res, .signalError c.error err, .callback callback err data], none⟩
      else
        ⟨h2, [.destroy res res, .signalError c.error err], some Val.typeError⟩
  else
    match res.get "readable" with
    | .error e => ⟨h1, [], some e⟩
    | .ok _ =>
      let e1 := if !readable.truthy then [Effect.destroy res res] else []
      if callback.isFunction then
        ⟨h2, e1 ++ [.callback callback err data], none⟩
      else
        ⟨h2, e1, some Val.typeError⟩

/-! ## One exchange: the handler, its subscriptions on the sink, the calls so far -/

/-- What reaches the handler: the five methods the transport calls, and the
two notifications of the sink the handler subscribed to in `onHeaders`. -/
inductive Event where
  | onConnect (c : Controller)
  | onHeaders (statusCode : Nat) (headers : Val) (run : FactoryRun)
  | onData (chunk : Val) (written : Val)
  | onComplete (trailers : Val)
  | onError (err : Val)
  | finished (err : Val) (readable : Val)
  | drain

/-- The listeners a list of calls registered for the sink's `drain` event. -/
def drainListenersOf : List Effect → List Nat
  | [] => []
  | .on _ event (.fn f) :: es =>
    if event == "drain" then f :: drainListenersOf es else drainListenersOf es
  | _ :: es => drainListenersOf es

/-- Whether a list of calls subscribed to the sink's end with `finished`. -/
def armsFinished : List Effect → Bool
  | [] => false
  | .finished _ :: _ => true
  | _ :: es => armsFinished es

/-- State of one exchange.  `finishedArmed` holds while the callback given to
`finished` is registered and has not run (`finished` runs it once);
`thrown` collects what the methods threw to their caller. -/
structure Exchange where
  handler : StreamHandler
  drainListeners : List Nat
  finishedArmed : Bool
  trace : List Effect
  thrown : List Val

/-- The exchange of a new handler. -/
def Exchange.start (h : StreamHandler) : Exchange :=
  ⟨h, [], false, [], []⟩

/-- Record the outcome of a method in the exchange. -/
def Exchange.after (x : Exchange) (o : Outcome) : Exchange :=
  { handler := o.handler
    drainListeners := x.drainListeners ++ drainListenersOf o.effects
    finishedArmed := x.finishedArmed || armsFinished o.effects
    trace := x.trace ++ o.effects
    thrown := x.thrown ++ o.thrown.toList }

/-- Deliver one event.  A `finished` notification runs the Finalize routine if
it is registered and has not run, and nothing otherwise; a `drain`
notification calls the listeners registered for it, whatever functions they
are. -/
def deliver (x : Exchange) : Event → Exchange
  | .onConnect c => x.after (onConnect x.handler c)
  | .onHeaders statusCode headers run => x.after (onHeaders x.handler statusCode headers run)
  | .onData chunk written => x.after (onData x.handler chunk written)
  | .onComplete trailers => x.after (onComplete x.handler trailers)
  | .onError err => x.after (onError x.handler err)
  | .finished err readable =>
    if x.finishedArmed then
      { x.after (finalize x.handler err readable) with finishedArmed := false }
    else x
  | .drain => { x with trace := x.trace ++ x.drainListeners.map Effect.listener }

/-- Deliver a sequence of events, one after the other. -/
def run (x : Exchange) (events : List Event) : Exchange :=
  events.foldl deliver x

/-- Number of times a list of calls invokes the completion callback, at once
(`callback(...)`) or deferred (`process.nextTick(callback, ...)`). -/
def invocations : List Effect → Nat
  | [] => 0
  | .callback _ _ _ :: es => invocations es + 1
  | .nextTick _ _ _ :: es => invocations es + 1
  | _ :: es => invocations es

/-- Number of calls of `controller.resume` made by the methods themselves in a
list of calls. -/
def resumes : List Effect → Nat
  | [] => 0
  | .resume _ :: es => resumes es + 1
  | _ :: es => resumes es

/-- Number of calls of registered `drain` listeners in a list of calls. -/
def listenerCalls : List Effect → Nat
  | [] => 0
  | .listener _ :: es => listenerCalls es + 1
  | _ :: es => listenerCalls es

/-- Number of `drain` notifications in a sequence of events. -/
def drains : List Event → Nat
  | [] => 0
  | .drain :: es => drains es + 1
  | _ :: es => drains es

/-- Whether a call is `res.write`. -/
def Effect.isWrite : Effect → Bool
  | .write _ _ => true
  | _ => false

/-- Whether a call is a subscription on the sink (`res.on` or `finished`). -/
def Effect.isSubscription : Effect → Bool
  | .on _ _ _ => true
  | .finished _ => true
  | _ => false

/-- Whether a call is `client.dispatch`. -/
def Effect.isDispatch : Effect → Bool
  | .dispatch _ _ _ => true
  | _ => false

/-- Whether a call is one of those the consumer sees: `res.write`, `res.end`,
or the completion callback, at once or deferred. -/
def Effect.isConsumerCall : Effect → Bool
  | .write _ _ => true
  | .endSink _ => true
  | .callback _ _ _ => true
  | .nextTick _ _ _ => true
  | _ => false

/-! ## The entry point -/

/-- What `stream` leaves behind: the calls made, the value thrown to the
caller, and whether it returned a promise. -/
structure StreamResult where
  effects : List Effect
  thrown : Option Val
  promise : Bool

/-- The body of the `try` block (line 135): `client.dispatch` is read, then
the handler is built, then `dispatch` is called; `dispatchThrows` is what
`dispatch` throws, if it does. -/
def attempt (client opts factory callback : Val) (dispatchThrows : Option Val) :
    List Effect × Option Val :=
  match client.get "dispatch" with
  | .error e => ([], some e)
  | .ok d =>
    match StreamHandler.new opts factory callback with
    | .error e => ([], some e)
    | .ok h =>
      if !d.isFunction then ([], some Val.typeError)
      else ([.dispatch client opts h], dispatchThrows)

/-- Lines 130-138 of `stream`, reached with a callback that is not `undefined`. -/
def streamWith (client opts factory callback : Val) (dispatchThrows : Option Val) :
    StreamResult :=
  if !callback.isFunction then
    ⟨[], some (invalidArgument "invalid callback"), false⟩
  else
    match attempt client opts factory callback dispatchThrows with
    | (es, none) => ⟨es, none, false⟩
    | (es, some err) => ⟨es ++ [.nextTick callback err .null], none, false⟩

/-- The function `stream (client, opts, factory, callback)` (lines 121-139).  Without a
callback it returns a promise whose executor calls `stream` again with the
arrow function `settle`. -/
def stream (client opts factory callback : Val) (dispatchThrows : Option Val) : StreamResult :=
  match callback with
  | .undefined =>
    ⟨(streamWith client opts factory .settle dispatchThrows).effects, none, true⟩
  | _ => streamWith client opts factory callback dispatchThrows

/-! ## Vocabulary of the statements -/

/-- What every method keeps about the completion callback: it invokes it at
most once, after an invocation the field is cleared, and with the field
already cleared it invokes nothing and leaves the field cleared. -/
def CallbackGuard (h : StreamHandler) (o : Outcome) : Prop :=
  invocations o.effects ≤ 1 ∧
  (invocations o.effects = 1 → o.handler.callback.truthy = false) ∧
  (h.callback.truthy = false →
    invocations o.effects = 0 ∧ o.handler.callback.truthy = false)

/-- A method that throws has invoked nothing. -/
def FaultSilent (o : Outcome) : Prop :=
  o.thrown ≠ none → invocations o.effects = 0

/-- An event in which the factory, if it runs, does not abort the exchange. -/
def Event.noAbort : Event → Prop
  | .onHeaders _ _ run => run.abort = none
  | _ => True

/-- The guard of the methods, read on the exchange. -/
def DeliverGuard (x y : Exchange) : Prop :=
  invocations y.trace ≤ invocations x.trace + 1 ∧
  (invocations y.trace = invocations x.trace + 1 → y.handler.callback.truthy = false) ∧
  (x.handler.callback.truthy = false →
    invocations y.trace = invocations x.trace ∧ y.handler.callback.truthy = false)

/-- The Sink Contract as `onHeaders` tests it: a truthy value whose `write`,
`end` and `on` are functions. -/
def IsWritable (res : Val) : Prop :=
  res.truthy = true ∧
  (∃ w, res.get "write" = .ok w ∧ w.isFunction = true) ∧
  (∃ e, res.get "end" = .ok e ∧ e.isFunction = true) ∧
  (∃ o, res.get "on" = .ok o ∧ o.isFunction = true)

/-- The calls `onData` makes for a list of chunks, each with what `write`
returned for it: the write, and a pause after a falsy return. -/
def writeCalls (sink : Val) (c : Controller) : List (Val × Val) → List Effect
  | [] => []
  | (chunk, written) :: ws =>
    (Effect.write sink chunk :: if written.truthy then [] else [Effect.pause c.pause]) ++
      writeCalls sink c ws

/-- The value `trailers || {}` recorded by `onComplete`. -/
def recordedTrailers (trailers : Val) : Val :=
  if trailers.truthy then trailers else .obj []

/-- The success payload `{ opaque, trailers }`. -/
def payload (opq trailers : Val) : Val :=
  .obj [("opaque", opq), ("trailers", trailers)]

/-- The argument `{ statusCode, headers, opaque }` the factory is called with. -/
def factoryArg (statusCode : Nat) (headers opq : Val) : Val :=
  .obj [("statusCode", .num statusCode), ("headers", headers), ("opaque", opq)]

/-- The calls of an `onHeaders` that accepts `sink`: the factory, the two
subscriptions and, if the sink has a `destroy` function, its wrapping. -/
def acceptCalls (factory : Val) (statusCode : Nat) (headers opq sink : Val) (c : Controller) :
    List Effect :=
  [Effect.factory factory (factoryArg statusCode headers opq),
    .on sink "drain" (.fn c.resume), .finished sink] ++
    (if hasDestroy sink then [Effect.wrapDestroy sink] else [])

/-- The events of an exchange that runs to its end: connect, headers whose
factory returns `sink`, one `onData` per chunk (with what `write` returned),
`onComplete`, and the sink's finished notification. -/
def completeExchange (c : Controller) (statusCode : Nat) (headers sink : Val)
    (writes : List (Val × Val)) (trailers err readable : Val) : List Event :=
  [Event.onConnect c, .onHeaders statusCode headers ⟨none, .ok sink⟩] ++
    writes.map (fun p => Event.onData p.1 p.2) ++
    [.onComplete trailers, .finished err readable]

/-- What holds of every exchange that starts from a handler built with a
function callback.  The callback field holds a function or `null`; a stored
sink passed the shape test, its finished notification and its `drain`
listener are registered, and the controller and the callback are there; while
the factory is still there, no
sink is stored, nothing is subscribed and nothing was written; at most one
`drain` listener is registered. -/
structure Inv (x : Exchange) : Prop where
  callback_fn : x.handler.callback.isFunction = true ∨ x.handler.callback = .null
  stored : x.handler.res.truthy = true →
    x.finishedArmed = true ∧ (∃ c, x.handler.controller = some c) ∧
      x.handler.callback.isFunction = true ∧ IsWritable x.handler.res ∧
      x.drainListeners.length = 1
  fresh : x.handler.factory.isFunction = true →
    x.handler.res = .null ∧ x.drainListeners = [] ∧ x.finishedArmed = false ∧
      ∀ e ∈ x.trace, e.isWrite = false
  listeners : x.drainListeners.length ≤ 1

/-- An exchange reached from a handler that `new StreamHandler(opts, factory,
callback)` built with a function callback (the only way `stream` builds one),
by delivering the events `pre`. -/
def Reached (x : Exchange) : Prop :=
  ∃ opts factory callback h0 pre,
    StreamHandler.new opts factory callback = .ok h0 ∧ callback.isFunction = true ∧
      x = run (Exchange.start h0) pre

/-- What the methods other than `onHeaders` do to the fields: they clear
fields or leave them (only `onConnect` sets one, the controller), they clear
the callback only with the sink cleared, they subscribe to nothing, and
without a stored sink they write nothing. -/
structure Quiet (h : StreamHandler) (o : Outcome) : Prop where
  callback : o.handler.callback = h.callback ∨
    (o.handler.callback = .null ∧ o.handler.res.truthy = false)
  res : o.handler.res = h.res ∨ o.handler.res = .null
  controller : ∀ c, h.controller = some c → ∃ d, o.handler.controller = some d
  factory : o.handler.factory = h.factory ∨ o.handler.factory = .null
  subscriptions : drainListenersOf o.effects = [] ∧ armsFinished o.effects = false
  writes : h.res = .null → ∀ e ∈ o.effects, e.isWrite = false

/-- An exchange that can no longer obtain a sink: the factory is gone, no sink
is stored, and nothing was ever written. -/
def Dead (x : Exchange) : Prop :=
  x.handler.factory.isFunction = false ∧ x.handler.res = .null ∧
    ∀ e ∈ x.trace, e.isWrite = false

/-- Number of calls of the factory in a list of calls. -/
def factoryCalls : List Effect → Nat
  | [] => 0
  | .factory _ _ :: es => factoryCalls es + 1
  | _ :: es => factoryCalls es

/-- Whether delivering `ev` stores a sink: the `res` field holds none before
and one after. -/
def storesSink (x : Exchange) (ev : Event) : Bool :=
  !x.handler.res.truthy && (deliver x ev).handler.res.truthy

/-- Number of events of a sequence whose delivery stores a sink. -/
def sinkStores (x : Exchange) : List Event → Nat
  | [] => 0
  | ev :: events => (if storesSink x ev then 1 else 0) + sinkStores (deliver x ev) events

/-- What every method keeps about the factory: it calls it at most once, after
a call the field is cleared, with the field cleared it calls nothing, and it
never puts a value in the field. -/
def FactoryGuard (h : StreamHandler) (o : Outcome) : Prop :=
  factoryCalls o.effects ≤ 1 ∧
  (factoryCalls o.effects = 1 → o.handler.factory = .null) ∧
  (h.factory.isFunction = false → factoryCalls o.effects = 0) ∧
  (o.handler.factory = h.factory ∨ o.handler.factory = .null)

/-- What holds besides `Inv` of every exchange that starts from a handler built
with a function callback: the `res` field holds a sink or `null`; while the
finished notification is registered there is a controller; once the callback
has been invoked, the callback and the sink are cleared and the factory is
gone. -/
structure Cleared (x : Exchange) : Prop where
  res_shape : x.handler.res.truthy = true ∨ x.handler.res = .null
  armed_controller : x.finishedArmed = true → ∃ c, x.handler.controller = some c
  invoked : 1 ≤ invocations x.trace →
    x.handler.callback = .null ∧ x.handler.res = .null ∧
      x.handler.factory.isFunction = false

/-- The informational `onHeaders` events of a list of status codes, headers
and (unused) factory runs. -/
def informational (infos : List (Nat × Val × FactoryRun)) : List Event :=
  infos.map fun p => Event.onHeaders p.1 p.2.1 p.2.2

/-- The events of an exchange in the order of the transport: `onConnect`,
informational headers, the headers whose factory returns `sink`, one `onData`
per chunk, `onComplete`, and then the sink's finished notification. -/
def orderedExchange (c : Controller) (infos : List (Nat × Val × FactoryRun))
    (statusCode : Nat) (headers sink : Val) (writes : List (Val × Val))
    (trailers err readable : Val) : List Event :=
  Event.onConnect c ::
    (informational infos ++
      Event.onHeaders statusCode headers ⟨none, .ok sink⟩ ::
        (writes.map (fun p => Event.onData p.1 p.2) ++
          [.onComplete trailers, .finished err readable]))

/-- The sequence `pre` cut short: one `onError`, no transport event after it,
and the sink (destroyed if there was one) reporting finished with `err`. -/
def cutShort (pre : List Event) (transportErr err readable : Val) : List Event :=
  pre ++ [.onError transportErr, .finished err readable]

/-- An exchange that waits for the headers: nothing thrown, the factory and
the callback there, no sink, nothing registered. -/
structure Waiting (x : Exchange) : Prop where
  thrown : x.thrown = []
  res : x.handler.res = .null
  unarmed : x.finishedArmed = false
  callback : x.handler.callback.isFunction = true
  factory : x.handler.factory.isFunction = true

/-- An exchange that streams: nothing thrown, a sink stored, its finished
notification registered, the controller and the callback there. -/
structure Streaming (x : Exchange) : Prop where
  thrown : x.thrown = []
  sink : IsWritable x.handler.res
  armed : x.finishedArmed = true
  controller : ∃ c, x.handler.controller = some c
  callback : x.handler.callback.isFunction = true

/-- An exchange that is over: nothing thrown, sink and callback cleared, the
finished notification delivered. -/
structure Finished (x : Exchange) : Prop where
  thrown : x.thrown = []
  res : x.handler.res = .null
  callback : x.handler.callback = .null
  unarmed : x.finishedArmed = false

/-! ## Sample values -/

/-- A sink with the three functions of the contract. -/
def sampleSink : Val :=
  .obj [("write", .fn 10), ("end", .fn 11), ("on", .fn 12)]

/-- A value without `write`. -/
def sampleBadSink : Val :=
  .obj [("end", .fn 11), ("on", .fn 12)]

/-- Options of a `GET` request with an opaque token. -/
def sampleOpts : Val :=
  .obj [("method", .str "GET"), ("opaque", .str "token")]

/-- The handler `new StreamHandler(sampleOpts, fn 1, fn 2)`. -/
def sampleHandler : StreamHandler :=
  ⟨.str "token", none, .fn 1, .fn 2, .null, .null⟩

/-- A controller. -/
def sampleController : Controller :=
  ⟨3, 4, 5⟩

/-- A client with a `dispatch` function. -/
def sampleClient : Val :=
  .obj [("dispatch", .fn 7)]

/-- The sample handler after `onConnect` and an `onHeaders(200)` that accepted
the sample sink. -/
def sampleAccepted : Exchange :=
  run (Exchange.start sampleHandler)
    [.onConnect sampleController, .onHeaders 200 .null ⟨none, .ok sampleSink⟩]

/-- The sample handler after a whole exchange without chunks: connect,
headers that accept the sample sink, `onComplete`, and the finished
notification without error. -/
def sampleDone : Exchange :=
  run (Exchange.start sampleHandler)
    (completeExchange sampleController 200 .null sampleSink [] .undefined .undefined
      .undefined)

/-- The sample handler after the sink was accepted and `onError` came twice. -/
def sampleTwiceFailed : Exchange :=
  run sampleAccepted [.onError (.str "e1"), .onError (.str "e2")]

/-- The sample handler after the sink was accepted and `onError` came once. -/
def sampleFailed : Exchange :=
  run sampleAccepted [.onError (.str "e1")]

/-! ## Values: evaluation lemmas -/

@[simp] theorem truthy_null : Val.null.truthy = false := rfl

@[simp] theorem truthy_undefined : Val.undefined.truthy = false := rfl

@[simp] theorem truthy_fn (id : Nat) : (Val.fn id).truthy = true := rfl

@[simp] theorem truthy_obj (props : List (String × Val)) : (Val.obj props).truthy = true := rfl

@[simp] theorem truthy_error (cls : ErrorClass) (m : String) :
    (Val.error cls m).truthy = true := rfl

@[simp] theorem isFunction_null : Val.null.isFunction = false := rfl

@[simp] theorem isFunction_undefined : Val.undefined.isFunction = false := rfl

@[simp] theorem isFunction_fn (id : Nat) : (Val.fn id).isFunction = true := rfl

@[simp] theorem isFunction_settle : Val.settle.isFunction = true := rfl

theorem isFunction_truthy {v : Val} (hv : v.isFunction = true) : v.truthy = true := by
  cases v <;> simp_all [Val.isFunction, Val.typeof, Val.truthy]

/-- A property read fails on `null` and `undefined` only, so not on a truthy value. -/
theorem get_of_truthy {v : Val} (hv : v.truthy = true) (key : String) :
    ∃ w, v.get key = .ok w := by
  cases v <;> simp_all [Val.get, Val.truthy]

/-! ## Counting lemmas -/

theorem invocations_append (as bs : List Effect) :
    invocations (as ++ bs) = invocations as + invocations bs := by
  induction as with
  | nil => simp [invocations]
  | cons a as ih => cases a <;> simp [invocations, ih] <;> omega

theorem resumes_append (as bs : List Effect) :
    resumes (as ++ bs) = resumes as + resumes bs := by
  induction as with
  | nil => simp [resumes]
  | cons a as ih =>
    cases a <;> simp [resumes, ih]
    omega

theorem resumes_map_listener (fs : List Nat) :
    resumes (fs.map Effect.listener) = 0 := by
  induction fs with
  | nil => rfl
  | cons f fs ih => simp [resumes, ih]

theorem listenerCalls_append (as bs : List Effect) :
    listenerCalls (as ++ bs) = listenerCalls as + listenerCalls bs := by
  induction as with
  | nil => simp [listenerCalls]
  | cons a as ih =>
    cases a <;> simp [listenerCalls, ih]
    omega

theorem listenerCalls_map_listener (fs : List Nat) :
    listenerCalls (fs.map Effect.listener) = fs.length := by
  induction fs with
  | nil => rfl
  | cons f fs ih => simp [listenerCalls, ih]

theorem invocations_map_listener (fs : List Nat) :
    invocations (fs.map Effect.listener) = 0 := by
  induction fs with
  | nil => rfl
  | cons f fs ih => simp [invocations, ih]

/-! ## The completion callback is invoked at most once -/

theorem onConnect_guard (h : StreamHandler) (c : Controller) :
    CallbackGuard h (onConnect h c) := by
  simp [CallbackGuard, onConnect, invocations]

theorem onError_guard (h : StreamHandler) (err : Val) :
    CallbackGuard h (onError h err) := by
  unfold CallbackGuard onError
  by_cases h1 : h.res.truthy <;> by_cases h2 : h.callback.truthy <;>
    by_cases h3 : h.callback.isFunction <;> simp [h1, h2, h3, invocations]

theorem onData_guard (h : StreamHandler) (chunk written : Val) :
    CallbackGuard h (onData h chunk written) := by
  unfold CallbackGuard onData
  cases hg : h.res.get "write" with
  | error e => simp [hg, invocations]
  | ok w =>
    cases hc : h.controller <;> by_cases h1 : w.isFunction <;> by_cases h2 : written.truthy <;>
      simp [hg, hc, h1, h2, invocations]

theorem onComplete_guard (h : StreamHandler) (trailers : Val) :
    CallbackGuard h (onComplete h trailers) := by
  unfold CallbackGuard onComplete
  cases hg : h.res.get "end" with
  | error e => simp [hg, invocations]
  | ok f => by_cases h1 : f.isFunction <;> simp [hg, h1, invocations]

theorem finalize_guard (h : StreamHandler) (err readable : Val) :
    CallbackGuard h (finalize h err readable) := by
  unfold CallbackGuard finalize
  by_cases hf : h.callback.isFunction
  · have ht := isFunction_truthy hf
    by_cases h1 : err.truthy
    · cases hc : h.controller <;> simp [hc, h1, hf, ht, invocations]
    · cases hg : h.res.get "readable" <;> by_cases h2 : readable.truthy <;>
        simp [hg, h1, h2, hf, ht, invocations, invocations_append]
  · by_cases h1 : err.truthy
    · cases hc : h.controller <;> simp [hc, h1, hf, invocations]
    · cases hg : h.res.get "readable" <;> by_cases h2 : readable.truthy <;>
        simp [hg, h1, h2, hf, invocations]

theorem duringFactory_guard (h : StreamHandler) (run : FactoryRun) :
    CallbackGuard h ⟨(duringFactory h run).1, (duringFactory h run).2, none⟩ := by
  unfold duringFactory
  cases ha : run.abort with
  | none => simp [CallbackGuard, invocations]
  | some err => exact onError_guard h err

theorem onHeaders_guard (h : StreamHandler) (statusCode : Nat) (headers : Val)
    (run : FactoryRun) : CallbackGuard h (onHeaders h statusCode headers run) := by
  have hg := duringFactory_guard { h with factory := .null } run
  unfold CallbackGuard at hg ⊢
  simp only [onHeaders] at hg ⊢
  generalize duringFactory { h with factory := .null } run = d at hg ⊢
  by_cases h1 : statusCode < 200
  · simp [h1, invocations]
  · by_cases h2 : h.factory.isFunction
    · cases hr : run.result with
      | error ex => simpa [h1, h2, hr, invocations] using hg
      | ok res =>
        by_cases h3 : d.1.callback.truthy
        · by_cases h4 : badSink res
          · simpa [h1, h2, hr, h3, h4, invocations] using hg
          · cases hc : h.controller with
            | none => simpa [h1, h2, hr, h3, h4, hc, invocations] using hg
            | some c =>
              by_cases h5 : hasDestroy res <;>
                simpa [h1, h2, hr, h3, h4, hc, h5, invocations, invocations_append] using hg
        · simpa [h1, h2, hr, h3, invocations] using hg
    · simp [h1, h2, invocations]

theorem onConnect_faultSilent (h : StreamHandler) (c : Controller) :
    FaultSilent (onConnect h c) := by
  simp [FaultSilent, onConnect]

theorem onError_faultSilent (h : StreamHandler) (err : Val) : FaultSilent (onError h err) := by
  unfold FaultSilent onError
  by_cases h1 : h.res.truthy <;> by_cases h2 : h.callback.truthy <;>
    by_cases h3 : h.callback.isFunction <;> simp [h1, h2, h3, invocations]

theorem onData_faultSilent (h : StreamHandler) (chunk written : Val) :
    FaultSilent (onData h chunk written) := by
  unfold FaultSilent onData
  cases hg : h.res.get "write" with
  | error e => simp [hg, invocations]
  | ok w =>
    cases hc : h.controller <;> by_cases h1 : w.isFunction <;> by_cases h2 : written.truthy <;>
      simp [hg, hc, h1, h2, invocations]

theorem onComplete_faultSilent (h : StreamHandler) (trailers : Val) :
    FaultSilent (onComplete h trailers) := by
  unfold FaultSilent onComplete
  cases hg : h.res.get "end" with
  | error e => simp [hg, invocations]
  | ok f => by_cases h1 : f.isFunction <;> simp [hg, h1, invocations]

theorem finalize_faultSilent (h : StreamHandler) (err readable : Val) :
    FaultSilent (finalize h err readable) := by
  unfold FaultSilent finalize
  by_cases hf : h.callback.isFunction <;> by_cases h1 : err.truthy
  · cases hc : h.controller <;> simp [hc, h1, hf, invocations]
  · cases hg : h.res.get "readable" <;> by_cases h2 : readable.truthy <;>
      simp [hg, h1, h2, hf, invocations]
  · cases hc : h.controller <;> simp [hc, h1, hf, invocations]
  · cases hg : h.res.get "readable" <;> by_cases h2 : readable.truthy <;>
      simp [hg, h1, h2, hf, invocations]

/-- The calls of `onHeaders` that invoke the callback are those of the
`onError` that ran inside the factory: `onHeaders` itself invokes nothing. -/
theorem onHeaders_invocations (h : StreamHandler) (statusCode : Nat) (headers : Val)
    (run : FactoryRun) :
    invocations (onHeaders h statusCode headers run).effects ≤
      invocations (duringFactory { h with factory := .null } run).2 := by
  simp only [onHeaders]
  generalize duringFactory { h with factory := .null } run = d
  by_cases h1 : statusCode < 200
  · simp [h1, invocations]
  · by_cases h2 : h.factory.isFunction
    · cases hr : run.result with
      | error ex => simp [h1, h2, hr, invocations]
      | ok res =>
        by_cases h3 : d.1.callback.truthy
        · by_cases h4 : badSink res
          · simp [h1, h2, hr, h3, h4, invocations]
          · cases hc : h.controller with
            | none => simp [h1, h2, hr, h3, h4, hc, invocations]
            | some c =>
              by_cases h5 : hasDestroy res <;>
                simp [h1, h2, hr, h3, h4, hc, h5, invocations, invocations_append]
        · simp [h1, h2, hr, h3, invocations]
    · simp [h1, h2, invocations]

theorem onHeaders_faultSilent (h : StreamHandler) (statusCode : Nat) (headers : Val)
    (run : FactoryRun) (hrun : run.abort = none) :
    FaultSilent (onHeaders h statusCode headers run) := by
  intro _
  have hle := onHeaders_invocations h statusCode headers run
  simp [duringFactory, hrun, invocations] at hle
  exact hle

theorem after_guard (x : Exchange) (o : Outcome) (hg : CallbackGuard x.handler o) :
    DeliverGuard x (x.after o) := by
  obtain ⟨h1, h2, h3⟩ := hg
  refine ⟨?_, ?_, ?_⟩
  · simp only [Exchange.after, invocations_append]; omega
  · intro h; apply h2
    simp only [Exchange.after, invocations_append] at h; omega
  · intro h
    obtain ⟨h4, h5⟩ := h3 h
    simp only [Exchange.after, invocations_append]
    exact ⟨by omega, h5⟩

theorem deliver_guard (x : Exchange) (ev : Event) : DeliverGuard x (deliver x ev) := by
  cases ev with
  | onConnect c => exact after_guard x _ (onConnect_guard _ c)
  | onHeaders s hd run => exact after_guard x _ (onHeaders_guard _ s hd run)
  | onData chunk written => exact after_guard x _ (onData_guard _ chunk written)
  | onComplete trailers => exact after_guard x _ (onComplete_guard _ trailers)
  | onError err => exact after_guard x _ (onError_guard _ err)
  | finished err readable =>
    simp only [deliver]
    by_cases ha : x.finishedArmed
    · simp only [ha, if_true]
      exact after_guard x _ (finalize_guard _ err readable)
    · simp [ha, DeliverGuard]
  | drain =>
    simp [deliver, DeliverGuard, invocations_append, invocations_map_listener]

theorem run_cons (x : Exchange) (ev : Event) (events : List Event) :
    run x (ev :: events) = run (deliver x ev) events := rfl

theorem run_append (x : Exchange) (es fs : List Event) :
    run x (es ++ fs) = run (run x es) fs := by
  simp [run, List.foldl_append]

theorem run_guard (events : List Event) (x : Exchange) :
    invocations (run x events).trace ≤ invocations x.trace + 1 ∧
    (x.handler.callback.truthy = false →
      invocations (run x events).trace = invocations x.trace) := by
  induction events generalizing x with
  | nil => simp [run]
  | cons ev events ih =>
    obtain ⟨h1, h2, h3⟩ := deliver_guard x ev
    obtain ⟨i1, i2⟩ := ih (deliver x ev)
    rw [run_cons]
    refine ⟨?_, ?_⟩
    · by_cases hc : invocations (deliver x ev).trace = invocations x.trace + 1
      · have := i2 (h2 hc); omega
      · omega
    · intro h
      obtain ⟨h4, h5⟩ := h3 h
      rw [i2 h5, h4]

theorem deliver_faultSilent (x : Exchange) (ev : Event) (hev : ev.noAbort)
    (hthrown : (deliver x ev).thrown ≠ x.thrown) :
    invocations (deliver x ev).trace = invocations x.trace := by
  have key : ∀ o : Outcome, FaultSilent o → (x.after o).thrown ≠ x.thrown →
      invocations (x.after o).trace = invocations x.trace := by
    intro o ho hne
    have : o.thrown ≠ none := by
      intro h; apply hne; simp [Exchange.after, h]
    simp [Exchange.after, invocations_append, ho this]
  cases ev with
  | onConnect c => exact key _ (onConnect_faultSilent _ c) hthrown
  | onHeaders s hd run => exact key _ (onHeaders_faultSilent _ s hd run hev) hthrown
  | onData chunk written => exact key _ (onData_faultSilent _ chunk written) hthrown
  | onComplete trailers => exact key _ (onComplete_faultSilent _ trailers) hthrown
  | onError err => exact key _ (onError_faultSilent _ err) hthrown
  | finished err readable =>
    simp only [deliver] at hthrown ⊢
    by_cases ha : x.finishedArmed
    · simp only [ha, if_true] at hthrown ⊢
      exact key _ (finalize_faultSilent _ err readable) hthrown
    · simp [ha] at hthrown
  | drain => simp [deliver] at hthrown

/-! ## C1 -/

/-- Claim C1. Whatever events reach one handler, in whatever order (the five
methods of the transport, the sink's `drain`, and the sink's finished
notification, which `finished` delivers once), the completion callback is
invoked at most once, counting `callback(...)` and
`process.nextTick(callback, ...)` alike; so a second `onError`, or an
`onComplete` after an `onError`, adds no invocation.  An event whose method
throws adds no invocation; `onHeaders` never invokes the callback itself, the
only invocation during it being that of an `onError` that reached the handler
while the factory ran. -/
theorem callback_invoked_at_most_once (h : StreamHandler) (events : List Event) :
    invocations (run (Exchange.start h) events).trace ≤ 1 ∧
    (∀ (x : Exchange) (ev : Event), ev.noAbort → (deliver x ev).thrown ≠ x.thrown →
      invocations (deliver x ev).trace = invocations x.trace) ∧
    (∀ (g : StreamHandler) (statusCode : Nat) (headers : Val) (run : FactoryRun),
      invocations (onHeaders g statusCode headers run).effects ≤
        invocations (duringFactory { g with factory := .null } run).2) := by
  refine ⟨?_, deliver_faultSilent, onHeaders_invocations⟩
  have := (run_guard events (Exchange.start h)).1
  simpa [Exchange.start, invocations] using this

/-! ## The shape test and the constructor -/

theorem badSink_eq_false_iff (res : Val) : badSink res = false ↔ IsWritable res := by
  unfold badSink IsWritable
  by_cases ht : res.truthy
  · obtain ⟨w, hw⟩ := get_of_truthy ht "write"
    obtain ⟨e, he⟩ := get_of_truthy ht "end"
    obtain ⟨o, ho⟩ := get_of_truthy ht "on"
    simp [ht, hw, he, ho, and_assoc]
  · simp [ht]

/-- What a successful construction tells: the arguments passed the three
tests and the fields are those of lines 27-32. -/
theorem new_ok {opts factory callback : Val} {h : StreamHandler}
    (hnew : StreamHandler.new opts factory callback = .ok h) :
    opts.truthy = true ∧ opts.typeof = .object ∧ factory.isFunction = true ∧
    ∃ method opq, opts.get "method" = .ok method ∧ opts.get "opaque" = .ok opq ∧
      method.strictEqStr "CONNECT" = false ∧
      h = ⟨opq, none, factory, callback, .null, .null⟩ := by
  unfold StreamHandler.new at hnew
  by_cases h1 : opts.truthy <;> by_cases h2 : opts.typeof = .object <;>
    by_cases h3 : factory.typeof = .function <;> simp [h1, h2, h3] at hnew
  obtain ⟨m, hm⟩ := get_of_truthy h1 "method"
  obtain ⟨o, ho⟩ := get_of_truthy h1 "opaque"
  simp only [hm, ho] at hnew
  by_cases h4 : m.strictEqStr "CONNECT" <;> simp [h4] at hnew
  refine ⟨h1, h2, by simp [Val.isFunction, h3], m, o, hm, ho, by simpa using h4, hnew.symm⟩

/-! ## A complete exchange -/

theorem onData_stored (h : StreamHandler) (c : Controller) (chunk written : Val)
    (hw : IsWritable h.res) (hc : h.controller = some c) :
    onData h chunk written =
      ⟨h, Effect.write h.res chunk :: (if written.truthy then [] else [Effect.pause c.pause]),
        none⟩ := by
  obtain ⟨_, ⟨w, hw1, hw2⟩, _⟩ := hw
  unfold onData
  by_cases h2 : written.truthy <;> simp [hw1, hw2, hc, h2]

theorem deliver_onData_stored (x : Exchange) (c : Controller) (chunk written : Val)
    (hw : IsWritable x.handler.res) (hc : x.handler.controller = some c) :
    deliver x (.onData chunk written) =
      { x with trace := x.trace ++ writeCalls x.handler.res c [(chunk, written)] } := by
  simp only [deliver, onData_stored x.handler c chunk written hw hc, Exchange.after, writeCalls]
  by_cases h2 : written.truthy <;>
    simp [h2, drainListenersOf, armsFinished]

theorem run_onData_stored (writes : List (Val × Val)) (x : Exchange) (c : Controller)
    (hw : IsWritable x.handler.res) (hc : x.handler.controller = some c) :
    run x (writes.map fun p => Event.onData p.1 p.2) =
      { x with trace := x.trace ++ writeCalls x.handler.res c writes } := by
  induction writes generalizing x with
  | nil => simp [run, writeCalls]
  | cons p writes ih =>
    obtain ⟨chunk, written⟩ := p
    rw [List.map_cons, run_cons, deliver_onData_stored x c chunk written hw hc]
    have := ih { x with trace := x.trace ++ writeCalls x.handler.res c [(chunk, written)] } hw hc
    rw [this]
    simp [writeCalls, List.append_assoc]

theorem filter_writeCalls (sink : Val) (c : Controller) (writes : List (Val × Val)) :
    (writeCalls sink c writes).filter Effect.isConsumerCall =
      writes.map (fun p => Effect.write sink p.1) := by
  induction writes with
  | nil => rfl
  | cons p writes ih =>
    obtain ⟨chunk, written⟩ := p
    by_cases h : written.truthy <;>
      simp [writeCalls, h, ih, Effect.isConsumerCall, List.filter_cons]

theorem invocations_writeCalls (sink : Val) (c : Controller) (writes : List (Val × Val)) :
    invocations (writeCalls sink c writes) = 0 := by
  induction writes with
  | nil => rfl
  | cons p writes ih =>
    obtain ⟨chunk, written⟩ := p
    by_cases h : written.truthy <;> simp [writeCalls, h, ih, invocations]

/-- The exchange after `onConnect` and an `onHeaders` that accepts `sink`. -/
theorem run_accept (h : StreamHandler) (c : Controller) (statusCode : Nat)
    (headers sink : Val) (hf : h.factory.isFunction = true) (hcb : h.callback.truthy = true)
    (hstatus : 200 ≤ statusCode) (hsink : IsWritable sink) :
    run (Exchange.start h)
        [Event.onConnect c, .onHeaders statusCode headers ⟨none, .ok sink⟩] =
      ⟨{ h with controller := some c, factory := .null, res := sink }, [c.resume], true,
        acceptCalls h.factory statusCode headers h.opaqueValue sink c, []⟩ := by
  have hb := (badSink_eq_false_iff sink).2 hsink
  have hs : ¬ statusCode < 200 := by omega
  by_cases hd : hasDestroy sink <;>
    simp [run, deliver, Exchange.start, Exchange.after, onConnect, onHeaders, duringFactory,
      hf, hcb, hb, hs, hd, acceptCalls, factoryArg, drainListenersOf, armsFinished]

/-! ## C2 -/

/-- Claim C2, amended. A handler built from `opts` with a function callback, taken
through `onConnect`, an `onHeaders` with status code at least 200 whose
factory returns a value with function `write`, `end` and `on`, one `onData`
per chunk, `onComplete(trailers)` and a finished notification without error
(a falsy `err`, so `null` in particular): the calls the consumer sees are
`write(chunk)` for each chunk in order, then `end`, then one invocation of the
callback with `(err, { opaque, trailers })`, where `opaque` is `opts.opaque`
and `trailers` is the recorded `trailers || {}`.  It is the only invocation,
nothing is thrown, and the whole trace is spelled out. -/
theorem successful_exchange_trace
    (opts factory callback opq : Val) (h0 : StreamHandler) (c : Controller)
    (statusCode : Nat) (headers sink : Val) (writes : List (Val × Val))
    (trailers err readable : Val)
    (hnew : StreamHandler.new opts factory callback = .ok h0)
    (hcb : callback.isFunction = true)
    (hopq : opts.get "opaque" = .ok opq)
    (hstatus : 200 ≤ statusCode)
    (hsink : IsWritable sink)
    (herr : err.truthy = false) :
    ((run (Exchange.start h0)
        (completeExchange c statusCode headers sink writes trailers err readable)).trace.filter
          Effect.isConsumerCall =
      writes.map (fun p => Effect.write sink p.1) ++
        [.endSink sink, .callback callback err (payload opq (recordedTrailers trailers))]) ∧
    invocations (run (Exchange.start h0)
        (completeExchange c statusCode headers sink writes trailers err readable)).trace = 1 ∧
    (run (Exchange.start h0)
        (completeExchange c statusCode headers sink writes trailers err readable)).thrown = [] ∧
    (run (Exchange.start h0)
        (completeExchange c statusCode headers sink writes trailers err readable)).trace =
      acceptCalls factory statusCode headers opq sink c ++ writeCalls sink c writes ++
        [.endSink sink] ++ (if readable.truthy then [] else [.destroy sink sink]) ++
        [.callback callback err (payload opq (recordedTrailers trailers))] := by
  obtain ⟨_, _, hf, method, opq', _, hopq', _, rfl⟩ := new_ok hnew
  rw [hopq] at hopq'
  cases hopq'
  have hct := isFunction_truthy hcb
  obtain ⟨hst, _, ⟨e, he1, he2⟩, _⟩ := id hsink
  obtain ⟨r, hr⟩ := get_of_truthy hst "readable"
  have htrace : (run (Exchange.start ⟨opq, none, factory, callback, .null, .null⟩)
        (completeExchange c statusCode headers sink writes trailers err readable)).trace =
      acceptCalls factory statusCode headers opq sink c ++ writeCalls sink c writes ++
        [.endSink sink] ++ (if readable.truthy then [] else [.destroy sink sink]) ++
        [.callback callback err (payload opq (recordedTrailers trailers))] ∧
      (run (Exchange.start ⟨opq, none, factory, callback, .null, .null⟩)
        (completeExchange c statusCode headers sink writes trailers err readable)).thrown
        = [] := by
    unfold completeExchange
    rw [run_append, run_append, run_accept _ c statusCode headers sink hf hct hstatus hsink]
    rw [run_onData_stored writes _ c hsink rfl]
    by_cases h2 : readable.truthy <;>
      simp [run, deliver, Exchange.after, onComplete, finalize, he1, he2, hr, herr, hcb, h2,
        payload, recordedTrailers, drainListenersOf, armsFinished]
  obtain ⟨ht, hth⟩ := htrace
  refine ⟨?_, ?_, hth, ht⟩
  · rw [ht]
    by_cases h2 : readable.truthy <;> by_cases hd : hasDestroy sink <;>
      simp [h2, hd, acceptCalls, List.filter_append, filter_writeCalls, Effect.isConsumerCall,
        List.filter_cons]
  · rw [ht]
    by_cases h2 : readable.truthy <;> by_cases hd : hasDestroy sink <;>
      simp [h2, hd, acceptCalls, invocations_append, invocations_writeCalls, invocations]

/-! ## The invariant of an exchange -/

theorem start_inv {opts factory callback : Val} {h0 : StreamHandler}
    (hnew : StreamHandler.new opts factory callback = .ok h0)
    (hcb : callback.isFunction = true) : Inv (Exchange.start h0) := by
  obtain ⟨_, _, _, _, _, _, _, _, rfl⟩ := new_ok hnew
  constructor <;> simp [Exchange.start, hcb]

/-- With no sink stored, the `onError` that may run inside the factory clears
at most the callback, and schedules it when it does. -/
theorem duringFactory_null (h : StreamHandler) (run : FactoryRun) (hres : h.res = .null) :
    ∃ cb es, duringFactory { h with factory := .null } run =
        ({ h with factory := .null, callback := cb }, es) ∧
      (cb = h.callback ∨ cb = .null) ∧
      (es = [] ∨ ∃ err, es = [.nextTick h.callback err .null]) ∧
      (cb.truthy = true → es = []) := by
  unfold duringFactory
  cases ha : run.abort with
  | none => exact ⟨h.callback, [], by simp⟩
  | some err =>
    by_cases h2 : h.callback.truthy
    · by_cases h3 : h.callback.isFunction
      · exact ⟨.null, [.nextTick h.callback err .null], by simp [onError, hres, h2, h3]⟩
      · exact ⟨.null, [], by simp [onError, hres, h2, h3]⟩
    · exact ⟨h.callback, [], by simp [onError, hres, h2]⟩

theorem onConnect_quiet (h : StreamHandler) (c : Controller) : Quiet h (onConnect h c) := by
  constructor <;> simp [onConnect, drainListenersOf, armsFinished]

theorem onError_quiet (h : StreamHandler) (err : Val) : Quiet h (onError h err) := by
  unfold onError
  by_cases h1 : h.res.truthy <;> by_cases h2 : h.callback.truthy <;>
    by_cases h3 : h.callback.isFunction <;>
    constructor <;>
    first
    | exact fun c hc => ⟨c, by simpa [h1, h2, h3] using hc⟩
    | simp [h1, h2, h3, drainListenersOf, armsFinished, Effect.isWrite]

theorem onData_quiet (h : StreamHandler) (chunk written : Val) :
    Quiet h (onData h chunk written) := by
  unfold onData
  cases hg : h.res.get "write" with
  | error e =>
    constructor <;>
    first
    | exact fun c hc => ⟨c, by simpa [hg] using hc⟩
    | simp [hg, drainListenersOf, armsFinished]
  | ok w =>
    have hnull : h.res ≠ .null := by
      intro hn; rw [hn] at hg; simp [Val.get] at hg
    cases hc : h.controller <;> by_cases h1 : w.isFunction <;> by_cases h2 : written.truthy <;>
      constructor <;>
      first
      | exact fun c hc => ⟨c, by simpa [hg, h1, h2] using hc⟩
      | simp [hg, hc, h1, h2, hnull, drainListenersOf, armsFinished, Effect.isWrite]

theorem onComplete_quiet (h : StreamHandler) (trailers : Val) :
    Quiet h (onComplete h trailers) := by
  unfold onComplete
  cases hg : h.res.get "end" with
  | error e =>
    constructor <;>
    first
    | exact fun c hc => ⟨c, by simpa [hg] using hc⟩
    | simp [hg, drainListenersOf, armsFinished]
  | ok f =>
    by_cases h1 : f.isFunction <;> constructor <;>
      first
      | exact fun c hc => ⟨c, by simpa [hg, h1] using hc⟩
      | simp [hg, h1, drainListenersOf, armsFinished, Effect.isWrite]

theorem finalize_res (h : StreamHandler) (err readable : Val) :
    (finalize h err readable).handler.res = .null := by
  unfold finalize
  by_cases hf : h.callback.isFunction <;> by_cases h1 : err.truthy
  · cases hc : h.controller <;> simp [hc, h1, hf]
  · cases hg : h.res.get "readable" <;> simp [hg, h1, hf]
  · cases hc : h.controller <;> simp [hc, h1, hf]
  · cases hg : h.res.get "readable" <;> simp [hg, h1, hf]

theorem finalize_quiet (h : StreamHandler) (err readable : Val) :
    Quiet h (finalize h err readable) := by
  unfold finalize
  by_cases hf : h.callback.isFunction <;> by_cases h1 : err.truthy
  · cases hc : h.controller <;> constructor <;>
      first
      | exact fun c hc => ⟨c, by simpa [h1, hf] using hc⟩
      | simp [hc, h1, hf, drainListenersOf, armsFinished, Effect.isWrite]
  · cases hg : h.res.get "readable" <;> by_cases h2 : readable.truthy <;> constructor <;>
      first
      | exact fun c hc => ⟨c, by simpa [hg, h1, hf] using hc⟩
      | simp [hg, h1, h2, hf, drainListenersOf, armsFinished, Effect.isWrite]
  · cases hc : h.controller <;> constructor <;>
      first
      | exact fun c hc => ⟨c, by simpa [h1, hf] using hc⟩
      | simp [hc, h1, hf, drainListenersOf, armsFinished, Effect.isWrite]
  · cases hg : h.res.get "readable" <;> by_cases h2 : readable.truthy <;> constructor <;>
      first
      | exact fun c hc => ⟨c, by simpa [hg, h1, hf] using hc⟩
      | simp [hg, h1, h2, hf, drainListenersOf, armsFinished, Effect.isWrite]

theorem after_inv_quiet {x : Exchange} {o : Outcome} (hx : Inv x) (q : Quiet x.handler o) :
    Inv (x.after o) := by
  have hres : o.handler.res.truthy = true → o.handler.res = x.handler.res := by
    intro ht
    rcases q.res with h | h
    · exact h
    · rw [h] at ht; simp at ht
  constructor
  · rcases q.callback with h | ⟨h, _⟩
    · simpa [Exchange.after, h] using hx.callback_fn
    · right; simpa [Exchange.after] using h
  · intro ht
    have ht' : o.handler.res.truthy = true := by simpa [Exchange.after] using ht
    have he := hres ht'
    obtain ⟨ha, ⟨c, hc⟩, hcb, hw, hl⟩ := hx.stored (by rw [← he]; exact ht')
    refine ⟨by simp [Exchange.after, ha], ?_, ?_, ?_, ?_⟩
    · simpa [Exchange.after] using q.controller c hc
    · rcases q.callback with h | ⟨_, h⟩
      · simpa [Exchange.after, h] using hcb
      · rw [h] at ht'; simp at ht'
    · simpa [Exchange.after, he] using hw
    · simpa [Exchange.after, q.subscriptions.1] using hl
  · intro hf
    have hf' : o.handler.factory.isFunction = true := by simpa [Exchange.after] using hf
    have he : o.handler.factory = x.handler.factory := by
      rcases q.factory with h | h
      · exact h
      · rw [h] at hf'; simp at hf'
    obtain ⟨hr, hl, ha, hw⟩ := hx.fresh (by rw [← he]; exact hf')
    refine ⟨?_, ?_, ?_, ?_⟩
    · rcases q.res with h | h
      · simpa [Exchange.after, h] using hr
      · simpa [Exchange.after] using h
    · simp [Exchange.after, hl, q.subscriptions.1]
    · simp [Exchange.after, ha, q.subscriptions.2]
    · intro e he'
      simp only [Exchange.after, List.mem_append] at he'
      rcases he' with h | h
      · exact hw e h
      · exact q.writes hr e h
  · simpa [Exchange.after, q.subscriptions.1] using hx.listeners

theorem onHeaders_inv {x : Exchange} (hx : Inv x) (statusCode : Nat) (headers : Val)
    (run : FactoryRun) : Inv (x.after (onHeaders x.handler statusCode headers run)) := by
  by_cases h1 : statusCode < 200
  · have : onHeaders x.handler statusCode headers run = ⟨x.handler, [], none⟩ := by
      simp [onHeaders, h1]
    rw [this]
    exact after_inv_quiet hx (by
      constructor <;>
      first
      | exact fun c hc => ⟨c, hc⟩
      | simp [drainListenersOf, armsFinished])
  · by_cases h2 : x.handler.factory.isFunction
    · obtain ⟨hr, hl, ha, hw⟩ := hx.fresh h2
      obtain ⟨cb, es, hd, hcb, hes, hces⟩ := duringFactory_null x.handler run hr
      have hcbfn : cb.isFunction = true ∨ cb = .null := by
        rcases hcb with h | h
        · rw [h]; exact hx.callback_fn
        · exact Or.inr h
      have hsub : drainListenersOf es = [] ∧ armsFinished es = false ∧
          ∀ e ∈ es, e.isWrite = false := by
        rcases hes with h | ⟨err, h⟩ <;> simp [h, drainListenersOf, armsFinished, Effect.isWrite]
      simp only [onHeaders, h1, h2, hd]
      cases hres : run.result with
      | error ex =>
        constructor <;> simp [Exchange.after, hcbfn, hr, hl, hsub, drainListenersOf]
      | ok res =>
        by_cases h3 : cb.truthy
        · have hfn : cb.isFunction = true := by
            rcases hcbfn with h | h
            · exact h
            · rw [h] at h3; simp at h3
          by_cases h4 : badSink res
          · constructor <;> simp [Exchange.after, h3, h4, hcbfn, hr, hl, hsub, drainListenersOf]
          · have hw' := (badSink_eq_false_iff res).1 (by simpa using h4)
            cases hc : x.handler.controller with
            | none =>
              constructor <;>
                simp [Exchange.after, h3, h4, hcbfn, hr, hl, hsub, drainListenersOf]
            | some c =>
              by_cases h5 : hasDestroy res <;>
                constructor <;>
                simp [Exchange.after, h3, h4, h5, hfn, hw', hr, hl, hces h3, drainListenersOf,
                  armsFinished]
        · constructor <;> simp [Exchange.after, h3, hcbfn, hr, hl, hsub, drainListenersOf]
    · have : onHeaders x.handler statusCode headers run =
          ⟨{ x.handler with factory := .null }, [], some Val.typeError⟩ := by
        simp [onHeaders, h1, h2]
      rw [this]
      exact after_inv_quiet hx (by
        constructor <;>
        first
        | exact fun c hc => ⟨c, hc⟩
        | simp [drainListenersOf, armsFinished])

theorem deliver_inv {x : Exchange} (hx : Inv x) (ev : Event) : Inv (deliver x ev) := by
  cases ev with
  | onConnect c => exact after_inv_quiet hx (onConnect_quiet _ c)
  | onHeaders s hd run => exact onHeaders_inv hx s hd run
  | onData chunk written => exact after_inv_quiet hx (onData_quiet _ chunk written)
  | onComplete trailers => exact after_inv_quiet hx (onComplete_quiet _ trailers)
  | onError err => exact after_inv_quiet hx (onError_quiet _ err)
  | finished err readable =>
    simp only [deliver]
    by_cases ha : x.finishedArmed
    · simp only [ha, if_true]
      have hi := after_inv_quiet hx (finalize_quiet x.handler err readable)
      have hn := finalize_res x.handler err readable
      constructor
      · exact hi.callback_fn
      · intro ht
        simp [Exchange.after, hn] at ht
      · intro hf
        obtain ⟨h1, h2, _, h4⟩ := hi.fresh hf
        exact ⟨h1, h2, rfl, h4⟩
      · exact hi.listeners
    · simpa [ha] using hx
  | drain =>
    constructor
    · exact hx.callback_fn
    · exact hx.stored
    · intro hf
      obtain ⟨h1, h2, h3, h4⟩ := hx.fresh hf
      refine ⟨h1, h2, h3, ?_⟩
      intro e he
      simp only [deliver, h2, List.map_nil, List.append_nil] at he
      exact h4 e he
    · exact hx.listeners

theorem run_inv (events : List Event) {x : Exchange} (hx : Inv x) : Inv (run x events) := by
  induction events generalizing x with
  | nil => exact hx
  | cons ev events ih => exact ih (deliver_inv hx ev)

theorem reached_inv {x : Exchange} (hx : Reached x) : Inv x := by
  obtain ⟨opts, factory, callback, h0, pre, hnew, hcb, rfl⟩ := hx
  exact run_inv pre (start_inv hnew hcb)

theorem reached_deliver {x : Exchange} (hx : Reached x) (ev : Event) :
    Reached (deliver x ev) := by
  obtain ⟨opts, factory, callback, h0, pre, hnew, hcb, rfl⟩ := hx
  exact ⟨opts, factory, callback, h0, pre ++ [ev], hnew, hcb, by simp [run_append, run]⟩

/-! ## C3 -/

/-- With an error value: in an exchange that holds an accepted sink, `onError(err)` with an
error value clears the stored sink (and the factory), calls
`util.destroy(sink, err)` and nothing else, so it does not invoke the
callback, and it throws nothing.  When the sink's finished notification then
comes with `err`, the Finalize routine signals the controller and invokes the
callback with `(err, null)`; it is the one invocation of the whole exchange,
and the callback field is cleared. -/
theorem onError_with_sink (x : Exchange) (err readable : Val)
    (hx : Reached x) (hsink : x.handler.res.truthy = true) (herr : err.truthy = true) :
    onError x.handler err =
      ⟨{ x.handler with factory := .null, res := .null },
        [.destroy x.handler.res err], none⟩ ∧
    x.handler.callback.isFunction = true ∧
    (∃ c, x.handler.controller = some c ∧
      (deliver (deliver x (.onError err)) (.finished err readable)).trace =
        x.trace ++ [.destroy x.handler.res err, .destroy .null .null,
          .signalError c.error err, .callback x.handler.callback err .null]) ∧
    invocations (deliver (deliver x (.onError err)) (.finished err readable)).trace = 1 ∧
    (deliver (deliver x (.onError err)) (.finished err readable)).thrown = x.thrown ∧
    (deliver (deliver x (.onError err)) (.finished err readable)).handler.callback = .null := by
  obtain ⟨ha, ⟨c, hc⟩, hcb, _, _⟩ := (reached_inv hx).stored hsink
  have hE : onError x.handler err =
      ⟨{ x.handler with factory := .null, res := .null },
        [.destroy x.handler.res err], none⟩ := by
    simp [onError, hsink]
  have hT : (deliver (deliver x (.onError err)) (.finished err readable)).trace =
        x.trace ++ [.destroy x.handler.res err, .destroy .null .null,
          .signalError c.error err, .callback x.handler.callback err .null] := by
    simp [deliver, hE, Exchange.after, ha, armsFinished, finalize, herr, hc, hcb]
  refine ⟨hE, hcb, ⟨c, hc, hT⟩, ?_, ?_, ?_⟩
  · obtain ⟨opts, factory, callback, h0, pre, hnew, hcb0, rfl⟩ := hx
    have hle := (run_guard (pre ++ [.onError err, .finished err readable])
      (Exchange.start h0)).1
    rw [run_append] at hle
    have hrun : run (run (Exchange.start h0) pre) [.onError err, .finished err readable] =
        deliver (deliver (run (Exchange.start h0) pre) (.onError err))
          (.finished err readable) := rfl
    rw [hrun] at hle
    have hge : 1 ≤ invocations (deliver (deliver (run (Exchange.start h0) pre) (.onError err))
          (.finished err readable)).trace := by
      rw [hT]; simp [invocations_append, invocations]
    have h0t : invocations (Exchange.start h0).trace = 0 := rfl
    omega
  · simp [deliver, hE, Exchange.after, ha, armsFinished, finalize, herr, hc, hcb]
  · simp [deliver, hE, Exchange.after, ha, armsFinished, finalize, herr, hc, hcb]

/-! ## C4 -/

/-- Claim C4. With no sink stored and a function in the callback field,
`onError(err)` clears the callback and the factory and makes one call,
`process.nextTick(callback, err, null)`: the callback is not invoked inside
`onError`, nothing is done to a sink or to the controller, nothing is thrown,
and the other fields stay. -/
theorem onError_without_sink (h : StreamHandler) (err : Val)
    (hres : h.res.truthy = false) (hcb : h.callback.isFunction = true) :
    onError h err =
      ⟨{ h with factory := .null, callback := .null },
        [.nextTick h.callback err .null], none⟩ := by
  simp [onError, hres, hcb, isFunction_truthy hcb]

/-! ## The entry point -/

theorem stream_of_function {callback : Val} (hcb : callback.isFunction = true)
    (client opts factory : Val) (dispatchThrows : Option Val) :
    stream client opts factory callback dispatchThrows =
      streamWith client opts factory callback dispatchThrows := by
  cases callback <;> simp_all [stream]

/-- The arguments the constructor refuses. -/
theorem new_error_of_bad (opts factory callback : Val)
    (hbad : opts.truthy = false ∨ opts.typeof ≠ .object ∨ factory.isFunction = false ∨
      opts.get "method" = .ok (.str "CONNECT")) :
    ∃ message, StreamHandler.new opts factory callback = .error (invalidArgument message) ∧
      (message = "invalid opts" ∨ message = "invalid factory" ∨ message = "invalid method") := by
  unfold StreamHandler.new
  by_cases h1 : opts.truthy
  · by_cases h2 : opts.typeof = .object
    · by_cases h3 : factory.typeof = .function
      · have h3' : factory.isFunction = true := by simp [Val.isFunction, h3]
        rcases hbad with h | h | h | h
        · simp [h1] at h
        · exact absurd h2 h
        · simp [h3'] at h
        · obtain ⟨o, ho⟩ := get_of_truthy h1 "opaque"
          exact ⟨"invalid method", by simp [h1, h2, h3, h, ho, Val.strictEqStr], by simp⟩
      · exact ⟨"invalid factory", by simp [h1, h2, h3], by simp⟩
    · exact ⟨"invalid opts", by simp [h1, h2], by simp⟩
  · exact ⟨"invalid opts", by simp [h1], by simp⟩

/-! ## C5 -/

/-- Claim C5, as written, fails. With `opts = null`, a function factory and a
function callback, `stream` throws nothing: the `InvalidArgumentError` of the
constructor is raised inside the `try` block of line 134, caught at line 136
and handed to `process.nextTick(callback, err, null)`. -/
theorem stream_null_opts_does_not_throw :
    (Val.fn 2).isFunction = true ∧ Val.null.truthy = false ∧
    (stream (.obj [("dispatch", .fn 7)]) .null (.fn 1) (.fn 2) none).thrown = none ∧
    (stream (.obj [("dispatch", .fn 7)]) .null (.fn 1) (.fn 2) none).effects =
      [.nextTick (.fn 2) (invalidArgument "invalid opts") .null] := by
  refine ⟨rfl, rfl, rfl, rfl⟩

/-- Claim C5, amended. When the callback is a function and `opts` is not an
object, or the factory is not a function, or `opts.method` is `'CONNECT'`,
`stream` does not throw and returns no promise: the `InvalidArgumentError` of
the constructor is caught and scheduled once for the callback, as
`process.nextTick(callback, err, null)`, and nothing else is called
(`client.dispatch` is read before the constructor runs, hence the premise
that `client` has one to read). -/
theorem constructor_error_is_deferred (client opts factory callback d : Val)
    (dispatchThrows : Option Val)
    (hcb : callback.isFunction = true)
    (hclient : client.get "dispatch" = .ok d)
    (hbad : opts.truthy = false ∨ opts.typeof ≠ .object ∨ factory.isFunction = false ∨
      opts.get "method" = .ok (.str "CONNECT")) :
    ∃ message,
      (message = "invalid opts" ∨ message = "invalid factory" ∨ message = "invalid method") ∧
      (stream client opts factory callback dispatchThrows).thrown = none ∧
      (stream client opts factory callback dispatchThrows).promise = false ∧
      (stream client opts factory callback dispatchThrows).effects =
        [.nextTick callback (invalidArgument message) .null] := by
  obtain ⟨message, hnew, hm⟩ := new_error_of_bad opts factory callback hbad
  refine ⟨message, hm, ?_, ?_, ?_⟩ <;>
    simp [stream_of_function hcb, streamWith, attempt, hcb, hclient, hnew]

/-! ## C6 -/

theorem attempt_no_dispatch_of_bad (client opts factory callback : Val)
    (dispatchThrows : Option Val)
    (hbad : opts.truthy = false ∨ opts.typeof ≠ .object ∨ factory.isFunction = false ∨
      opts.get "method" = .ok (.str "CONNECT")) :
    ∃ err, attempt client opts factory callback dispatchThrows = ([], some err) := by
  obtain ⟨message, hnew, _⟩ := new_error_of_bad opts factory callback hbad
  unfold attempt
  cases hg : client.get "dispatch" with
  | error e => exact ⟨e, by simp⟩
  | ok d => exact ⟨invalidArgument message, by simp [hnew]⟩

theorem streamWith_no_dispatch_of_bad (client opts factory callback : Val)
    (dispatchThrows : Option Val)
    (hbad : opts.truthy = false ∨ opts.typeof ≠ .object ∨ factory.isFunction = false ∨
      opts.get "method" = .ok (.str "CONNECT")) :
    ∀ e ∈ (streamWith client opts factory callback dispatchThrows).effects,
      e.isDispatch = false := by
  obtain ⟨err, ha⟩ := attempt_no_dispatch_of_bad client opts factory callback dispatchThrows hbad
  unfold streamWith
  by_cases hcb : callback.isFunction <;> simp [hcb, ha, Effect.isDispatch]

/-- Claim C6. When `opts` is not an object, or `opts.method` is `'CONNECT'`, or
the factory is not a function, or a callback is given that is not a function,
no call made by `stream` is `client.dispatch`: this holds with a callback and
without one (the promise branch), and whatever `dispatch` would do. -/
theorem invalid_arguments_never_dispatch (client opts factory callback : Val)
    (dispatchThrows : Option Val)
    (hbad : opts.truthy = false ∨ opts.typeof ≠ .object ∨
      opts.get "method" = .ok (.str "CONNECT") ∨ factory.isFunction = false ∨
      (callback ≠ .undefined ∧ callback.isFunction = false)) :
    ∀ e ∈ (stream client opts factory callback dispatchThrows).effects,
      e.isDispatch = false := by
  rcases hbad with h | h | h | h | ⟨h, h'⟩
  · cases callback <;>
      exact streamWith_no_dispatch_of_bad client opts factory _ dispatchThrows (Or.inl h)
  · cases callback <;>
      exact streamWith_no_dispatch_of_bad client opts factory _ dispatchThrows
        (Or.inr (Or.inl h))
  · cases callback <;>
      exact streamWith_no_dispatch_of_bad client opts factory _ dispatchThrows
        (Or.inr (Or.inr (Or.inr h)))
  · cases callback <;>
      exact streamWith_no_dispatch_of_bad client opts factory _ dispatchThrows
        (Or.inr (Or.inr (Or.inl h)))
  · cases callback <;> simp_all [stream, streamWith]

/-! ## C7 -/

/-- Claim C7. With arguments the constructor accepts, a function callback and a
`client.dispatch` that is a function and throws `err`, `stream` throws
nothing and returns no promise; after the call of `dispatch` it makes one
call, `process.nextTick(callback, err, null)`, so the callback is not invoked
before `stream` returns. -/
theorem dispatch_throw_is_deferred (client opts factory callback d err : Val)
    (h : StreamHandler)
    (hnew : StreamHandler.new opts factory callback = .ok h)
    (hcb : callback.isFunction = true)
    (hclient : client.get "dispatch" = .ok d)
    (hd : d.isFunction = true) :
    stream client opts factory callback (some err) =
      ⟨[.dispatch client opts h, .nextTick callback err .null], none, false⟩ := by
  simp [stream_of_function hcb, streamWith, attempt, hcb, hclient, hnew, hd]

/-! ## After a refused sink -/

theorem after_dead_quiet {x : Exchange} {o : Outcome} (hx : Dead x) (q : Quiet x.handler o) :
    Dead (x.after o) := by
  obtain ⟨hf, hr, hw⟩ := hx
  refine ⟨?_, ?_, ?_⟩
  · rcases q.factory with h | h
    · simpa [Exchange.after, h] using hf
    · simp [Exchange.after, h]
  · rcases q.res with h | h
    · simpa [Exchange.after, h] using hr
    · simpa [Exchange.after] using h
  · intro e he
    simp only [Exchange.after, List.mem_append] at he
    rcases he with h | h
    · exact hw e h
    · exact q.writes hr e h

theorem onHeaders_quiet_of_no_factory (h : StreamHandler) (statusCode : Nat) (headers : Val)
    (run : FactoryRun) (hf : h.factory.isFunction = false) :
    Quiet h (onHeaders h statusCode headers run) := by
  by_cases h1 : statusCode < 200 <;>
    constructor <;>
    first
    | exact fun c hc => ⟨c, by simpa [onHeaders, h1, hf] using hc⟩
    | simp [onHeaders, h1, hf, drainListenersOf, armsFinished]

theorem deliver_dead {x : Exchange} (hx : Dead x) (ev : Event) : Dead (deliver x ev) := by
  cases ev with
  | onConnect c => exact after_dead_quiet hx (onConnect_quiet _ c)
  | onHeaders s hd run =>
    exact after_dead_quiet hx (onHeaders_quiet_of_no_factory _ s hd run hx.1)
  | onData chunk written => exact after_dead_quiet hx (onData_quiet _ chunk written)
  | onComplete trailers => exact after_dead_quiet hx (onComplete_quiet _ trailers)
  | onError err => exact after_dead_quiet hx (onError_quiet _ err)
  | finished err readable =>
    simp only [deliver]
    by_cases ha : x.finishedArmed
    · simp only [ha, if_true]
      exact after_dead_quiet hx (finalize_quiet x.handler err readable)
    · simpa [ha] using hx
  | drain =>
    obtain ⟨hf, hr, hw⟩ := hx
    refine ⟨hf, hr, ?_⟩
    intro e he
    simp only [deliver, List.mem_append, List.mem_map] at he
    rcases he with h | ⟨f, _, rfl⟩
    · exact hw e h
    · rfl

theorem run_dead (events : List Event) {x : Exchange} (hx : Dead x) : Dead (run x events) := by
  induction events generalizing x with
  | nil => exact hx
  | cons ev events ih => exact ih (deliver_dead hx ev)

/-! ## C8 -/

/-- Claim C8. In an exchange whose factory is still there, take an `onHeaders`
with status code at least 200 whose factory returns `res` and after which the
callback is still pending.  It throws `InvalidReturnValueError` exactly when
`res` is not a truthy value with function `write`, `end` and `on`.  When it
throws, it has made no subscription (neither `res.on` nor `finished`), no sink
is stored, and whatever events follow, no call of the exchange is ever a
`write`. -/
theorem onHeaders_contract_error (x : Exchange) (statusCode : Nat) (headers res : Val)
    (run : FactoryRun) (post : List Event)
    (hx : Reached x)
    (hstatus : 200 ≤ statusCode)
    (hf : x.handler.factory.isFunction = true)
    (hres : run.result = .ok res)
    (hcb : (duringFactory { x.handler with factory := .null } run).1.callback.truthy = true) :
    ((onHeaders x.handler statusCode headers run).thrown =
        some (invalidReturnValue "expected Writable") ↔ ¬ IsWritable res) ∧
    ((onHeaders x.handler statusCode headers run).thrown =
        some (invalidReturnValue "expected Writable") →
      (∀ e ∈ (onHeaders x.handler statusCode headers run).effects,
        e.isSubscription = false) ∧
      (onHeaders x.handler statusCode headers run).handler.res = .null ∧
      ∀ e ∈ (ClientStream.run (deliver x (.onHeaders statusCode headers run)) post).trace,
        e.isWrite = false) := by
  have hi := reached_inv hx
  obtain ⟨hr, hl, ha, hw⟩ := hi.fresh hf
  obtain ⟨cb, es, hd, hcb', hes, hces⟩ := duringFactory_null x.handler run hr
  rw [hd] at hcb
  have hes' : es = [] := hces hcb
  have hs : ¬ statusCode < 200 := by omega
  by_cases hb : badSink res
  · have hnw : ¬ IsWritable res := by
      rw [← badSink_eq_false_iff]; simp [hb]
    have hO : onHeaders x.handler statusCode headers run =
        ⟨{ x.handler with factory := .null, callback := cb },
          [.factory x.handler.factory
            (.obj [("statusCode", .num statusCode), ("headers", headers),
              ("opaque", x.handler.opaqueValue)])],
          some (invalidReturnValue "expected Writable")⟩ := by
      simp only [onHeaders, hd]
      simp [hs, hf, hres, hcb, hb, hes']
    refine ⟨by simp [hO, hnw], fun _ => ⟨by simp [hO, Effect.isSubscription], by simp [hO, hr], ?_⟩⟩
    have hdead : Dead (deliver x (.onHeaders statusCode headers run)) := by
      refine ⟨by simp [deliver, hO, Exchange.after], by simp [deliver, hO, Exchange.after, hr], ?_⟩
      intro e he
      simp only [deliver, hO, Exchange.after, List.mem_append, List.mem_singleton] at he
      rcases he with h | h
      · exact hw e h
      · rw [h]; rfl
    exact (run_dead post hdead).2.2
  · have hw' : IsWritable res := (badSink_eq_false_iff res).1 (by simpa using hb)
    have hne : (onHeaders x.handler statusCode headers run).thrown ≠
        some (invalidReturnValue "expected Writable") := by
      simp only [onHeaders, hd]
      cases hc : x.handler.controller <;>
        simp [hs, hf, hres, hcb, hb, Val.typeError, invalidReturnValue]
    exact ⟨by simp [hne, hw'], fun h => absurd h hne⟩

/-! ## C9 -/

/-- Claim C9. With a stored sink (a value that passed the shape test) and a
controller, `onData(chunk)` calls `write` once, with that chunk, and then
`controller.pause()` once exactly when `write` returned a falsy value; for a
`write` that returns a boolean, as the contract has it, exactly when it
returned `false`.  It changes no field, throws nothing, and calls neither the
callback nor `resume`. -/
theorem onData_forwards (h : StreamHandler) (c : Controller) (chunk written : Val)
    (hsink : IsWritable h.res) (hc : h.controller = some c) :
    onData h chunk written =
      ⟨h, .write h.res chunk :: (if written.truthy then [] else [.pause c.pause]), none⟩ ∧
    (∀ b : Bool, written = .bool b →
      (onData h chunk written).effects =
        if b = false then [.write h.res chunk, .pause c.pause] else [.write h.res chunk]) ∧
    invocations (onData h chunk written).effects = 0 ∧
    resumes (onData h chunk written).effects = 0 := by
  have hO := onData_stored h c chunk written hsink hc
  refine ⟨hO, ?_, ?_, ?_⟩
  · intro b hb
    subst hb
    cases b <;> simp [hO, Val.truthy]
  · by_cases h2 : written.truthy <;> simp [hO, h2, invocations]
  · by_cases h2 : written.truthy <;> simp [hO, h2, resumes]

/-! ## `resume` -/

theorem onConnect_resumes (h : StreamHandler) (c : Controller) :
    resumes (onConnect h c).effects = 0 := by
  simp [onConnect, resumes]

theorem onError_resumes (h : StreamHandler) (err : Val) :
    resumes (onError h err).effects = 0 := by
  unfold onError
  by_cases h1 : h.res.truthy <;> by_cases h2 : h.callback.truthy <;>
    by_cases h3 : h.callback.isFunction <;> simp [h1, h2, h3, resumes]

theorem onData_resumes (h : StreamHandler) (chunk written : Val) :
    resumes (onData h chunk written).effects = 0 := by
  unfold onData
  cases hg : h.res.get "write" with
  | error e => simp [hg, resumes]
  | ok w =>
    cases hc : h.controller <;> by_cases h1 : w.isFunction <;> by_cases h2 : written.truthy <;>
      simp [hg, hc, h1, h2, resumes]

theorem onComplete_resumes (h : StreamHandler) (trailers : Val) :
    resumes (onComplete h trailers).effects = 0 := by
  unfold onComplete
  cases hg : h.res.get "end" with
  | error e => simp [hg, resumes]
  | ok f => by_cases h1 : f.isFunction <;> simp [hg, h1, resumes]

theorem finalize_resumes (h : StreamHandler) (err readable : Val) :
    resumes (finalize h err readable).effects = 0 := by
  unfold finalize
  by_cases hf : h.callback.isFunction <;> by_cases h1 : err.truthy
  · cases hc : h.controller <;> simp [hc, h1, hf, resumes]
  · cases hg : h.res.get "readable" <;> by_cases h2 : readable.truthy <;>
      simp [hg, h1, h2, hf, resumes, resumes_append]
  · cases hc : h.controller <;> simp [hc, h1, hf, resumes]
  · cases hg : h.res.get "readable" <;> by_cases h2 : readable.truthy <;>
      simp [hg, h1, h2, hf, resumes]

theorem duringFactory_resumes (h : StreamHandler) (run : FactoryRun) :
    resumes (duringFactory h run).2 = 0 := by
  unfold duringFactory
  cases ha : run.abort with
  | none => rfl
  | some err => exact onError_resumes h err

theorem onHeaders_resumes (h : StreamHandler) (statusCode : Nat) (headers : Val)
    (run : FactoryRun) : resumes (onHeaders h statusCode headers run).effects = 0 := by
  have hd := duringFactory_resumes { h with factory := .null } run
  simp only [onHeaders]
  generalize duringFactory { h with factory := .null } run = d at hd
  by_cases h1 : statusCode < 200
  · simp [h1, resumes]
  · by_cases h2 : h.factory.isFunction
    · cases hr : run.result with
      | error ex => simp [h1, h2, hr, resumes, hd]
      | ok res =>
        by_cases h3 : d.1.callback.truthy
        · by_cases h4 : badSink res
          · simp [h1, h2, hr, h3, h4, resumes, hd]
          · cases hc : h.controller with
            | none => simp [h1, h2, hr, h3, h4, hc, resumes, hd]
            | some c =>
              by_cases h5 : hasDestroy res <;>
                simp [h1, h2, hr, h3, h4, hc, h5, resumes, resumes_append, hd]
        · simp [h1, h2, hr, h3, resumes, hd]
    · simp [h1, h2, resumes]

theorem deliver_resumes (x : Exchange) (ev : Event) :
    resumes (deliver x ev).trace = resumes x.trace := by
  cases ev with
  | onConnect c => simp [deliver, Exchange.after, resumes_append, onConnect_resumes]
  | onHeaders s hd run => simp [deliver, Exchange.after, resumes_append, onHeaders_resumes]
  | onData chunk written => simp [deliver, Exchange.after, resumes_append, onData_resumes]
  | onComplete trailers => simp [deliver, Exchange.after, resumes_append, onComplete_resumes]
  | onError err => simp [deliver, Exchange.after, resumes_append, onError_resumes]
  | finished err readable =>
    by_cases ha : x.finishedArmed <;>
      simp [deliver, ha, Exchange.after, resumes_append, finalize_resumes]
  | drain => simp [deliver, resumes_append, resumes_map_listener]

theorem run_resumes (events : List Event) (x : Exchange) :
    resumes (run x events).trace = resumes x.trace := by
  induction events generalizing x with
  | nil => rfl
  | cons ev events ih => rw [run_cons, ih, deliver_resumes]

/-! ## Calls of the `drain` listeners -/

theorem onConnect_listenerCalls (h : StreamHandler) (c : Controller) :
    listenerCalls (onConnect h c).effects = 0 := by
  simp [onConnect, listenerCalls]

theorem onError_listenerCalls (h : StreamHandler) (err : Val) :
    listenerCalls (onError h err).effects = 0 := by
  unfold onError
  by_cases h1 : h.res.truthy <;> by_cases h2 : h.callback.truthy <;>
    by_cases h3 : h.callback.isFunction <;> simp [h1, h2, h3, listenerCalls]

theorem onData_listenerCalls (h : StreamHandler) (chunk written : Val) :
    listenerCalls (onData h chunk written).effects = 0 := by
  unfold onData
  cases hg : h.res.get "write" with
  | error e => simp [hg, listenerCalls]
  | ok w =>
    cases hc : h.controller <;> by_cases h1 : w.isFunction <;> by_cases h2 : written.truthy <;>
      simp [hg, hc, h1, h2, listenerCalls]

theorem onComplete_listenerCalls (h : StreamHandler) (trailers : Val) :
    listenerCalls (onComplete h trailers).effects = 0 := by
  unfold onComplete
  cases hg : h.res.get "end" with
  | error e => simp [hg, listenerCalls]
  | ok f => by_cases h1 : f.isFunction <;> simp [hg, h1, listenerCalls]

theorem finalize_listenerCalls (h : StreamHandler) (err readable : Val) :
    listenerCalls (finalize h err readable).effects = 0 := by
  unfold finalize
  by_cases hf : h.callback.isFunction <;> by_cases h1 : err.truthy
  · cases hc : h.controller <;> simp [hc, h1, hf, listenerCalls]
  · cases hg : h.res.get "readable" <;> by_cases h2 : readable.truthy <;>
      simp [hg, h1, h2, hf, listenerCalls, listenerCalls_append]
  · cases hc : h.controller <;> simp [hc, h1, hf, listenerCalls]
  · cases hg : h.res.get "readable" <;> by_cases h2 : readable.truthy <;>
      simp [hg, h1, h2, hf, listenerCalls]

theorem duringFactory_listenerCalls (h : StreamHandler) (fr : FactoryRun) :
    listenerCalls (duringFactory h fr).2 = 0 := by
  unfold duringFactory
  cases ha : fr.abort with
  | none => rfl
  | some err => exact onError_listenerCalls h err

theorem onHeaders_listenerCalls (h : StreamHandler) (statusCode : Nat) (headers : Val)
    (fr : FactoryRun) : listenerCalls (onHeaders h statusCode headers fr).effects = 0 := by
  have hd := duringFactory_listenerCalls { h with factory := .null } fr
  simp only [onHeaders]
  generalize duringFactory { h with factory := .null } fr = d at hd
  by_cases h1 : statusCode < 200
  · simp [h1, listenerCalls]
  · by_cases h2 : h.factory.isFunction
    · cases hr : fr.result with
      | error ex => simp [h1, h2, hr, listenerCalls, hd]
      | ok res =>
        by_cases h3 : d.1.callback.truthy
        · by_cases h4 : badSink res
          · simp [h1, h2, hr, h3, h4, listenerCalls, hd]
          · cases hc : h.controller with
            | none => simp [h1, h2, hr, h3, h4, hc, listenerCalls, hd]
            | some c =>
              by_cases h5 : hasDestroy res <;>
                simp [h1, h2, hr, h3, h4, hc, h5, listenerCalls, listenerCalls_append, hd]
        · simp [h1, h2, hr, h3, listenerCalls, hd]
    · simp [h1, h2, listenerCalls]

theorem deliver_listenerCalls (x : Exchange) (ev : Event) :
    listenerCalls (deliver x ev).trace =
      listenerCalls x.trace + drains [ev] * x.drainListeners.length := by
  cases ev with
  | onConnect c =>
    simp [deliver, Exchange.after, listenerCalls_append, onConnect_listenerCalls, drains]
  | onHeaders s hd fr =>
    simp [deliver, Exchange.after, listenerCalls_append, onHeaders_listenerCalls, drains]
  | onData chunk written =>
    simp [deliver, Exchange.after, listenerCalls_append, onData_listenerCalls, drains]
  | onComplete trailers =>
    simp [deliver, Exchange.after, listenerCalls_append, onComplete_listenerCalls, drains]
  | onError err =>
    simp [deliver, Exchange.after, listenerCalls_append, onError_listenerCalls, drains]
  | finished err readable =>
    by_cases ha : x.finishedArmed <;>
      simp [deliver, ha, Exchange.after, listenerCalls_append, finalize_listenerCalls, drains]
  | drain => simp [deliver, listenerCalls_append, listenerCalls_map_listener, drains]

theorem run_listenerCalls (events : List Event) {x : Exchange} (hx : Inv x) :
    listenerCalls (run x events).trace ≤ listenerCalls x.trace + drains events := by
  induction events generalizing x with
  | nil => simp [run, drains]
  | cons ev events ih =>
    have h1 := ih (deliver_inv hx ev)
    have h2 := deliver_listenerCalls x ev
    have h3 := hx.listeners
    rw [run_cons]
    have h4 : drains (ev :: events) = drains [ev] + drains events := by
      cases ev <;> simp [drains]
      omega
    have h5 : drains [ev] * x.drainListeners.length ≤ drains [ev] := by
      calc drains [ev] * x.drainListeners.length ≤ drains [ev] * 1 :=
            Nat.mul_le_mul_left _ h3
        _ = drains [ev] := Nat.mul_one _
    omega

/-! ## What is registered for `drain` -/

theorem drainListenersOf_append (as bs : List Effect) :
    drainListenersOf (as ++ bs) = drainListenersOf as ++ drainListenersOf bs := by
  induction as with
  | nil => simp [drainListenersOf]
  | cons a as ih =>
    cases a <;> try simp [drainListenersOf, ih]
    rename_i sink event listener
    cases listener <;> simp [drainListenersOf, ih]
    split <;> simp

/-- The one listener `onHeaders` registers for `drain` is the `resume` of the
controller the handler holds (line 65). -/
theorem onHeaders_drainListeners (h : StreamHandler) (statusCode : Nat) (headers : Val)
    (fr : FactoryRun) :
    drainListenersOf (onHeaders h statusCode headers fr).effects = [] ∨
      ∃ c, h.controller = some c ∧
        drainListenersOf (onHeaders h statusCode headers fr).effects = [c.resume] := by
  have hd : drainListenersOf (duringFactory { h with factory := .null } fr).2 = [] := by
    unfold duringFactory
    cases ha : fr.abort with
    | none => rfl
    | some err => exact (onError_quiet _ err).subscriptions.1
  simp only [onHeaders]
  generalize duringFactory { h with factory := .null } fr = d at hd
  by_cases h1 : statusCode < 200
  · simp [h1, drainListenersOf]
  · by_cases h2 : h.factory.isFunction
    · cases hr : fr.result with
      | error ex => simp [h1, h2, hr, drainListenersOf, hd]
      | ok res =>
        by_cases h3 : d.1.callback.truthy
        · by_cases h4 : badSink res
          · simp [h1, h2, hr, h3, h4, drainListenersOf, hd]
          · cases hc : h.controller with
            | none => simp [h1, h2, hr, h3, h4, drainListenersOf, hd]
            | some c =>
              right
              refine ⟨c, rfl, ?_⟩
              by_cases h5 : hasDestroy res <;>
                simp [h1, h2, hr, h3, h4, h5, drainListenersOf, drainListenersOf_append, hd]
        · simp [h1, h2, hr, h3, drainListenersOf, hd]
    · simp [h1, h2, drainListenersOf]

/-- An event registers nothing for `drain`, or the `resume` of the controller
the handler holds. -/
theorem deliver_drainListeners (x : Exchange) (ev : Event) :
    (deliver x ev).drainListeners = x.drainListeners ∨
      ∃ c, x.handler.controller = some c ∧
        (deliver x ev).drainListeners = x.drainListeners ++ [c.resume] := by
  have key : ∀ o : Outcome, Quiet x.handler o →
      (x.after o).drainListeners = x.drainListeners := by
    intro o q
    simp [Exchange.after, q.subscriptions.1]
  cases ev with
  | onConnect c => exact Or.inl (key _ (onConnect_quiet _ c))
  | onHeaders s hd fr =>
    rcases onHeaders_drainListeners x.handler s hd fr with h | ⟨c, hc, h⟩
    · exact Or.inl (by simp [deliver, Exchange.after, h])
    · exact Or.inr ⟨c, hc, by simp [deliver, Exchange.after, h]⟩
  | onData chunk written => exact Or.inl (key _ (onData_quiet _ chunk written))
  | onComplete trailers => exact Or.inl (key _ (onComplete_quiet _ trailers))
  | onError err => exact Or.inl (key _ (onError_quiet _ err))
  | finished err readable =>
    simp only [deliver]
    by_cases ha : x.finishedArmed
    · simp only [ha, if_true]
      exact Or.inl (key _ (finalize_quiet _ err readable))
    · exact Or.inl (by simp [ha])
  | drain => exact Or.inl rfl

theorem onError_controller (h : StreamHandler) (err : Val) :
    (onError h err).handler.controller = h.controller := by
  unfold onError
  by_cases h1 : h.res.truthy <;> by_cases h2 : h.callback.truthy <;>
    by_cases h3 : h.callback.isFunction <;> simp [h1, h2, h3]

theorem duringFactory_controller (h : StreamHandler) (fr : FactoryRun) :
    (duringFactory h fr).1.controller = h.controller := by
  unfold duringFactory
  cases ha : fr.abort with
  | none => rfl
  | some err => exact onError_controller h err

theorem onHeaders_controller (h : StreamHandler) (statusCode : Nat) (headers : Val)
    (fr : FactoryRun) : (onHeaders h statusCode headers fr).handler.controller = h.controller := by
  have hd := duringFactory_controller { h with factory := .null } fr
  simp only [onHeaders]
  generalize duringFactory { h with factory := .null } fr = d at hd
  simp only [] at hd
  by_cases h1 : statusCode < 200
  · simp [h1]
  · by_cases h2 : h.factory.isFunction
    · cases hr : fr.result with
      | error ex => simp [h1, h2, hr, hd]
      | ok res =>
        by_cases h3 : d.1.callback.truthy
        · by_cases h4 : badSink res
          · simp [h1, h2, hr, h3, h4, hd]
          · cases hc : h.controller with
            | none => simpa [h1, h2, hr, h3, h4, hc] using hd
            | some c => simpa [h1, h2, hr, h3, h4, hc] using hd
        · simp [h1, h2, hr, h3, hd]
    · simp [h1, h2]

theorem onData_controller (h : StreamHandler) (chunk written : Val) :
    (onData h chunk written).handler.controller = h.controller := by
  unfold onData
  cases hg : h.res.get "write" with
  | error e => simp [hg]
  | ok w =>
    cases hc : h.controller <;> by_cases h1 : w.isFunction <;> by_cases h2 : written.truthy <;>
      simp [hg, hc, h1, h2]

theorem onComplete_controller (h : StreamHandler) (trailers : Val) :
    (onComplete h trailers).handler.controller = h.controller := by
  unfold onComplete
  cases hg : h.res.get "end" with
  | error e => simp [hg]
  | ok f => by_cases h1 : f.isFunction <;> simp [hg, h1]

theorem finalize_controller (h : StreamHandler) (err readable : Val) :
    (finalize h err readable).handler.controller = h.controller := by
  unfold finalize
  by_cases hf : h.callback.isFunction <;> by_cases h1 : err.truthy
  · cases hc : h.controller <;> simp [hc, h1, hf]
  · cases hg : h.res.get "readable" <;> simp [hg, h1, hf]
  · cases hc : h.controller <;> simp [hc, h1, hf]
  · cases hg : h.res.get "readable" <;> simp [hg, h1, hf]

/-- The controller the handler holds after an event is the one `onConnect`
just stored, or the one it held. -/
theorem deliver_controller_source (x : Exchange) (ev : Event) (c : Controller)
    (hc : (deliver x ev).handler.controller = some c) :
    ev = .onConnect c ∨ x.handler.controller = some c := by
  cases ev with
  | onConnect c' =>
    left
    simp only [deliver, Exchange.after, onConnect, Option.some.injEq] at hc
    rw [hc]
  | onHeaders s hd fr =>
    right; simpa [deliver, Exchange.after, onHeaders_controller] using hc
  | onData chunk written =>
    right; simpa [deliver, Exchange.after, onData_controller] using hc
  | onComplete trailers =>
    right; simpa [deliver, Exchange.after, onComplete_controller] using hc
  | onError err =>
    right; simpa [deliver, Exchange.after, onError_controller] using hc
  | finished err readable =>
    right
    by_cases ha : x.finishedArmed
    · simpa [deliver, ha, Exchange.after, finalize_controller] using hc
    · simpa [deliver, ha] using hc
  | drain => right; exact hc

/-- Along a run, the controller held and every function registered for `drain`
come from the controllers the events handed over with `onConnect`, or from
those known before. -/
theorem run_drainListeners (events : List Event) (x : Exchange) (known : Controller → Prop)
    (hctrl : ∀ c, x.handler.controller = some c → known c)
    (hlis : ∀ f ∈ x.drainListeners, ∃ c, known c ∧ f = c.resume) :
    (∀ c, (run x events).handler.controller = some c →
      known c ∨ Event.onConnect c ∈ events) ∧
    (∀ f ∈ (run x events).drainListeners,
      ∃ c, (known c ∨ Event.onConnect c ∈ events) ∧ f = c.resume) := by
  induction events generalizing x known with
  | nil =>
    refine ⟨fun c hc => Or.inl (hctrl c hc), fun f hf => ?_⟩
    obtain ⟨c, hk, he⟩ := hlis f hf
    exact ⟨c, Or.inl hk, he⟩
  | cons ev events ih =>
    have hctrl' : ∀ c, (deliver x ev).handler.controller = some c →
        known c ∨ ev = .onConnect c := by
      intro c hc
      rcases deliver_controller_source x ev c hc with h | h
      · exact Or.inr h
      · exact Or.inl (hctrl c h)
    have hlis' : ∀ f ∈ (deliver x ev).drainListeners,
        ∃ c, (known c ∨ ev = .onConnect c) ∧ f = c.resume := by
      intro f hf
      rcases deliver_drainListeners x ev with h | ⟨c, hc, h⟩
      · rw [h] at hf
        obtain ⟨c, hk, he⟩ := hlis f hf
        exact ⟨c, Or.inl hk, he⟩
      · rw [h, List.mem_append, List.mem_singleton] at hf
        rcases hf with hf | hf
        · obtain ⟨c', hk, he⟩ := hlis f hf
          exact ⟨c', Or.inl hk, he⟩
        · exact ⟨c, Or.inl (hctrl c hc), hf⟩
    obtain ⟨i1, i2⟩ := ih (deliver x ev) (fun c => known c ∨ ev = .onConnect c) hctrl' hlis'
    rw [run_cons]
    refine ⟨fun c hc => ?_, fun f hf => ?_⟩
    · rcases i1 c hc with (h | h) | h
      · exact Or.inl h
      · exact Or.inr (by rw [h]; exact List.mem_cons_self _ _)
      · exact Or.inr (List.mem_cons_of_mem _ h)
    · obtain ⟨c, hk, he⟩ := i2 f hf
      refine ⟨c, ?_, he⟩
      rcases hk with (h | h) | h
      · exact Or.inl h
      · exact Or.inr (by rw [h]; exact List.mem_cons_self _ _)
      · exact Or.inr (List.mem_cons_of_mem _ h)

/-! ## C10 -/

/-- Claim C10. No method of the handler calls `controller.resume`, nor a
listener of `drain`: not `onConnect`, `onHeaders` (with what runs inside the
factory), `onData`, `onComplete`, `onError`, nor the Finalize routine.  The
one function `onHeaders` registers for `drain` is the `resume` of the
controller the handler holds, so every function registered for `drain` in an
exchange is the `resume` of a controller that `onConnect` handed over.  A
`drain` notification calls what is registered and nothing else, an event
other than `drain` calls no listener; at most one listener is registered, and
exactly one while a sink is stored, so `resume` is called once per
notification, and over any sequence of events no more often than there are
`drain` notifications. -/
theorem resume_only_on_drain (x : Exchange) (events : List Event) (hx : Reached x) :
    (∀ h c, resumes (onConnect h c).effects = 0 ∧
      listenerCalls (onConnect h c).effects = 0) ∧
    (∀ h s hd r, resumes (onHeaders h s hd r).effects = 0 ∧
      listenerCalls (onHeaders h s hd r).effects = 0) ∧
    (∀ h chunk written, resumes (onData h chunk written).effects = 0 ∧
      listenerCalls (onData h chunk written).effects = 0) ∧
    (∀ h trailers, resumes (onComplete h trailers).effects = 0 ∧
      listenerCalls (onComplete h trailers).effects = 0) ∧
    (∀ h err, resumes (onError h err).effects = 0 ∧
      listenerCalls (onError h err).effects = 0) ∧
    (∀ h err readable, resumes (finalize h err readable).effects = 0 ∧
      listenerCalls (finalize h err readable).effects = 0) ∧
    (∀ h s hd r, drainListenersOf (onHeaders h s hd r).effects = [] ∨
      ∃ c, h.controller = some c ∧
        drainListenersOf (onHeaders h s hd r).effects = [c.resume]) ∧
    (∀ (opts factory callback : Val) (h0 : StreamHandler) (pre : List Event),
      StreamHandler.new opts factory callback = .ok h0 →
      ∀ f ∈ (run (Exchange.start h0) pre).drainListeners,
        ∃ c, Event.onConnect c ∈ pre ∧ f = c.resume) ∧
    (∀ ev, drains [ev] = 0 → listenerCalls (deliver x ev).trace = listenerCalls x.trace) ∧
    (deliver x .drain).trace = x.trace ++ x.drainListeners.map Effect.listener ∧
    x.drainListeners.length ≤ 1 ∧
    (x.handler.res.truthy = true → x.drainListeners.length = 1) ∧
    resumes (run x events).trace = resumes x.trace ∧
    listenerCalls (run x events).trace ≤ listenerCalls x.trace + drains events := by
  have hi := reached_inv hx
  refine ⟨fun h c => ⟨onConnect_resumes h c, onConnect_listenerCalls h c⟩,
    fun h s hd r => ⟨onHeaders_resumes h s hd r, onHeaders_listenerCalls h s hd r⟩,
    fun h chunk written =>
      ⟨onData_resumes h chunk written, onData_listenerCalls h chunk written⟩,
    fun h trailers => ⟨onComplete_resumes h trailers, onComplete_listenerCalls h trailers⟩,
    fun h err => ⟨onError_resumes h err, onError_listenerCalls h err⟩,
    fun h err readable =>
      ⟨finalize_resumes h err readable, finalize_listenerCalls h err readable⟩,
    onHeaders_drainListeners, ?_, ?_, rfl, hi.listeners, ?_, run_resumes events x,
    run_listenerCalls events hi⟩
  · intro opts factory callback h0 pre hnew f hf
    obtain ⟨_, _, _, _, _, _, _, _, rfl⟩ := new_ok hnew
    have := (run_drainListeners pre (Exchange.start _) (fun _ => False)
      (fun c hc => by simp [Exchange.start] at hc)
      (fun f hf => by simp [Exchange.start] at hf)).2 f hf
    obtain ⟨c, hk, he⟩ := this
    rcases hk with h | h
    · exact absurd h id
    · exact ⟨c, h, he⟩
  · intro ev hev
    rw [deliver_listenerCalls, hev]; simp
  · intro ht
    exact (hi.stored ht).2.2.2.2

/-! ## The statements at sample values -/

theorem sampleSink_writable : IsWritable sampleSink :=
  ⟨rfl, ⟨_, rfl, rfl⟩, ⟨_, rfl, rfl⟩, ⟨_, rfl, rfl⟩⟩

theorem sampleAccepted_reached : Reached sampleAccepted :=
  ⟨sampleOpts, .fn 1, .fn 2, sampleHandler, _, rfl, rfl, rfl⟩

theorem sampleStart_reached : Reached (Exchange.start sampleHandler) :=
  ⟨sampleOpts, .fn 1, .fn 2, sampleHandler, [], rfl, rfl, rfl⟩

theorem callback_invoked_at_most_once_witness :
    invocations (run (Exchange.start sampleHandler)
      [.onConnect sampleController, .onError (.str "e1"), .onError (.str "e2"),
        .onComplete .undefined]).trace ≤ 1 :=
  (callback_invoked_at_most_once sampleHandler _).1

theorem successful_exchange_trace_witness :
    StreamHandler.new sampleOpts (.fn 1) (.fn 2) = .ok sampleHandler ∧
    200 ≤ 200 ∧ IsWritable sampleSink ∧
    ((run (Exchange.start sampleHandler)
        (completeExchange sampleController 200 .null sampleSink
          [(.str "ab", .bool false), (.str "cd", .bool true)]
          (.obj [("x", .str "1")]) .null .undefined)).trace.filter Effect.isConsumerCall =
      [.write sampleSink (.str "ab"), .write sampleSink (.str "cd"), .endSink sampleSink,
        .callback (.fn 2) .null
          (payload (.str "token") (recordedTrailers (.obj [("x", .str "1")])))]) :=
  ⟨rfl, le_refl _, sampleSink_writable,
    (successful_exchange_trace sampleOpts (.fn 1) (.fn 2) (.str "token") sampleHandler
      sampleController 200 .null sampleSink [(.str "ab", .bool false), (.str "cd", .bool true)]
      (.obj [("x", .str "1")]) .null .undefined rfl rfl rfl (le_refl _) sampleSink_writable
      rfl).1⟩

theorem onError_with_sink_witness :
    Reached sampleAccepted ∧ sampleAccepted.handler.res.truthy = true ∧
    invocations (deliver (deliver sampleAccepted (.onError (.str "boom")))
      (.finished (.str "boom") .undefined)).trace = 1 :=
  ⟨sampleAccepted_reached, rfl,
    (onError_with_sink sampleAccepted (.str "boom") .undefined sampleAccepted_reached
      rfl rfl).2.2.2.1⟩

theorem onError_without_sink_witness :
    sampleHandler.res.truthy = false ∧ sampleHandler.callback.isFunction = true ∧
    onError sampleHandler (.str "boom") =
      ⟨{ sampleHandler with factory := .null, callback := .null },
        [.nextTick sampleHandler.callback (.str "boom") .null], none⟩ :=
  ⟨rfl, rfl, onError_without_sink sampleHandler (.str "boom") rfl rfl⟩

theorem constructor_error_is_deferred_witness :
    (Val.fn 2).isFunction = true ∧ Val.null.truthy = false ∧
    ∃ message,
      (message = "invalid opts" ∨ message = "invalid factory" ∨ message = "invalid method") ∧
      (stream sampleClient .null (.fn 1) (.fn 2) none).thrown = none ∧
      (stream sampleClient .null (.fn 1) (.fn 2) none).promise = false ∧
      (stream sampleClient .null (.fn 1) (.fn 2) none).effects =
        [.nextTick (.fn 2) (invalidArgument message) .null] :=
  ⟨rfl, rfl,
    constructor_error_is_deferred sampleClient .null (.fn 1) (.fn 2) (.fn 7) none rfl rfl
      (Or.inl rfl)⟩

theorem invalid_arguments_never_dispatch_witness :
    (Val.obj [("method", .str "CONNECT")]).get "method" = .ok (.str "CONNECT") ∧
    ∀ e ∈ (stream sampleClient (.obj [("method", .str "CONNECT")]) (.fn 1) .undefined
      none).effects, e.isDispatch = false :=
  ⟨rfl,
    invalid_arguments_never_dispatch sampleClient (.obj [("method", .str "CONNECT")]) (.fn 1)
      .undefined none (Or.inr (Or.inr (Or.inl rfl)))⟩

theorem dispatch_throw_is_deferred_witness :
    StreamHandler.new sampleOpts (.fn 1) (.fn 2) = .ok sampleHandler ∧
    stream sampleClient sampleOpts (.fn 1) (.fn 2) (some (.str "boom")) =
      ⟨[.dispatch sampleClient sampleOpts sampleHandler,
        .nextTick (.fn 2) (.str "boom") .null], none, false⟩ :=
  ⟨rfl,
    dispatch_throw_is_deferred sampleClient sampleOpts (.fn 1) (.fn 2) (.fn 7) (.str "boom")
      sampleHandler rfl rfl rfl rfl⟩

theorem onHeaders_contract_error_witness :
    Reached (Exchange.start sampleHandler) ∧ 200 ≤ 200 ∧ ¬ IsWritable sampleBadSink ∧
    ∀ e ∈ (run (deliver (Exchange.start sampleHandler)
        (.onHeaders 200 .null ⟨none, .ok sampleBadSink⟩))
        [.onData (.str "ab") (.bool true)]).trace, e.isWrite = false :=
  ⟨sampleStart_reached, le_refl _,
    (onHeaders_contract_error (Exchange.start sampleHandler) 200 .null sampleBadSink
      ⟨none, .ok sampleBadSink⟩ [.onData (.str "ab") (.bool true)] sampleStart_reached
      (le_refl _) rfl rfl rfl).1.mp rfl,
    ((onHeaders_contract_error (Exchange.start sampleHandler) 200 .null sampleBadSink
      ⟨none, .ok sampleBadSink⟩ [.onData (.str "ab") (.bool true)] sampleStart_reached
      (le_refl _) rfl rfl rfl).2 rfl).2.2⟩

theorem onData_forwards_witness :
    IsWritable sampleAccepted.handler.res ∧
    sampleAccepted.handler.controller = some sampleController ∧
    (onData sampleAccepted.handler (.str "ab") (.bool false)).effects =
      [.write sampleSink (.str "ab"), .pause 3] :=
  ⟨sampleSink_writable, rfl,
    (onData_forwards sampleAccepted.handler sampleController (.str "ab") (.bool false)
      sampleSink_writable rfl).2.1 false rfl⟩

theorem resume_only_on_drain_witness :
    Reached sampleAccepted ∧
    sampleAccepted.drainListeners = [sampleController.resume] ∧
    (deliver sampleAccepted .drain).trace =
      sampleAccepted.trace ++ [Effect.listener sampleController.resume] ∧
    (∀ f ∈ sampleAccepted.drainListeners,
      ∃ c, Event.onConnect c ∈
          [.onConnect sampleController, .onHeaders 200 .null ⟨none, .ok sampleSink⟩] ∧
        f = c.resume) ∧
    sampleAccepted.drainListeners.length = 1 :=
  ⟨sampleAccepted_reached, rfl,
    (resume_only_on_drain sampleAccepted [] sampleAccepted_reached).2.2.2.2.2.2.2.2.2.1,
    (resume_only_on_drain sampleAccepted [] sampleAccepted_reached).2.2.2.2.2.2.2.1
      sampleOpts (.fn 1) (.fn 2) sampleHandler _ rfl,
    (resume_only_on_drain sampleAccepted [] sampleAccepted_reached).2.2.2.2.2.2.2.2.2.2.2.1
      rfl⟩

/-! ## C11 -/

theorem after_nothing (x : Exchange) : x.after ⟨x.handler, [], none⟩ = x := by
  cases x
  simp [Exchange.after, drainListenersOf, armsFinished]

/-- Claim C11. An `onHeaders` with a status code below 200 returns at once:
every field of the handler is as before, no call is made (not the factory,
nor anything on the callback, the sink or the controller) and nothing is
thrown.  The exchange is the one it was, so whatever events come later, an
`onHeaders` with a status code of 200 or more among them, run as if the
informational one had not come. -/
theorem informational_headers_ignored (x : Exchange) (statusCode : Nat) (headers : Val)
    (fr : FactoryRun) (later : List Event) (hs : statusCode < 200) :
    onHeaders x.handler statusCode headers fr = ⟨x.handler, [], none⟩ ∧
    deliver x (.onHeaders statusCode headers fr) = x ∧
    run x (.onHeaders statusCode headers fr :: later) = run x later := by
  have hO : onHeaders x.handler statusCode headers fr = ⟨x.handler, [], none⟩ := by
    simp [onHeaders, hs]
  have hD : deliver x (.onHeaders statusCode headers fr) = x := by
    simp only [deliver, hO]
    exact after_nothing x
  exact ⟨hO, hD, by rw [run_cons, hD]⟩

theorem informational_headers_ignored_witness :
    100 < 200 ∧
    run (Exchange.start sampleHandler)
        [.onConnect sampleController, .onHeaders 100 .null ⟨none, .ok sampleBadSink⟩,
          .onHeaders 200 .null ⟨none, .ok sampleSink⟩] =
      run (Exchange.start sampleHandler)
        [.onConnect sampleController, .onHeaders 200 .null ⟨none, .ok sampleSink⟩] :=
  ⟨by decide,
    (informational_headers_ignored
      (deliver (Exchange.start sampleHandler) (.onConnect sampleController)) 100 .null
      ⟨none, .ok sampleBadSink⟩ [.onHeaders 200 .null ⟨none, .ok sampleSink⟩]
      (by decide)).2.2⟩

/-! ## The factory runs once -/

theorem factoryCalls_append (as bs : List Effect) :
    factoryCalls (as ++ bs) = factoryCalls as + factoryCalls bs := by
  induction as with
  | nil => simp [factoryCalls]
  | cons a as ih =>
    cases a <;> simp [factoryCalls, ih]
    omega

theorem factoryCalls_map_listener (fs : List Nat) :
    factoryCalls (fs.map Effect.listener) = 0 := by
  induction fs with
  | nil => rfl
  | cons f fs ih => simp [factoryCalls, ih]

theorem onConnect_factoryCalls (h : StreamHandler) (c : Controller) :
    factoryCalls (onConnect h c).effects = 0 := by
  simp [onConnect, factoryCalls]

theorem onError_factoryCalls (h : StreamHandler) (err : Val) :
    factoryCalls (onError h err).effects = 0 := by
  unfold onError
  by_cases h1 : h.res.truthy <;> by_cases h2 : h.callback.truthy <;>
    by_cases h3 : h.callback.isFunction <;> simp [h1, h2, h3, factoryCalls]

theorem onError_factory (h : StreamHandler) (err : Val) :
    (onError h err).handler.factory = .null := by
  unfold onError
  by_cases h1 : h.res.truthy <;> by_cases h2 : h.callback.truthy <;>
    by_cases h3 : h.callback.isFunction <;> simp [h1, h2, h3]

theorem onData_factoryCalls (h : StreamHandler) (chunk written : Val) :
    factoryCalls (onData h chunk written).effects = 0 := by
  unfold onData
  cases hg : h.res.get "write" with
  | error e => simp [hg, factoryCalls]
  | ok w =>
    cases hc : h.controller <;> by_cases h1 : w.isFunction <;> by_cases h2 : written.truthy <;>
      simp [hg, hc, h1, h2, factoryCalls]

theorem onComplete_factoryCalls (h : StreamHandler) (trailers : Val) :
    factoryCalls (onComplete h trailers).effects = 0 := by
  unfold onComplete
  cases hg : h.res.get "end" with
  | error e => simp [hg, factoryCalls]
  | ok f => by_cases h1 : f.isFunction <;> simp [hg, h1, factoryCalls]

theorem finalize_factoryCalls (h : StreamHandler) (err readable : Val) :
    factoryCalls (finalize h err readable).effects = 0 := by
  unfold finalize
  by_cases hf : h.callback.isFunction <;> by_cases h1 : err.truthy
  · cases hc : h.controller <;> simp [hc, h1, hf, factoryCalls]
  · cases hg : h.res.get "readable" <;> by_cases h2 : readable.truthy <;>
      simp [hg, h1, h2, hf, factoryCalls, factoryCalls_append]
  · cases hc : h.controller <;> simp [hc, h1, hf, factoryCalls]
  · cases hg : h.res.get "readable" <;> by_cases h2 : readable.truthy <;>
      simp [hg, h1, h2, hf, factoryCalls]

theorem quiet_factoryGuard {h : StreamHandler} {o : Outcome} (q : Quiet h o)
    (hz : factoryCalls o.effects = 0) : FactoryGuard h o := by
  refine ⟨by omega, fun h1 => by omega, fun _ => hz, q.factory⟩

/-- What runs inside the factory leaves the factory field cleared and does
not call the factory. -/
theorem duringFactory_factory (h : StreamHandler) (fr : FactoryRun) :
    (duringFactory { h with factory := .null } fr).1.factory = .null ∧
      factoryCalls (duringFactory { h with factory := .null } fr).2 = 0 := by
  unfold duringFactory
  cases ha : fr.abort with
  | none => simp [factoryCalls]
  | some err => exact ⟨onError_factory _ err, onError_factoryCalls _ err⟩

theorem onHeaders_factoryGuard (h : StreamHandler) (statusCode : Nat) (headers : Val)
    (fr : FactoryRun) : FactoryGuard h (onHeaders h statusCode headers fr) := by
  have hd := duringFactory_factory h fr
  unfold FactoryGuard
  simp only [onHeaders]
  generalize duringFactory { h with factory := .null } fr = d at hd
  obtain ⟨hd1, hd2⟩ := hd
  by_cases h1 : statusCode < 200
  · simp [h1, factoryCalls]
  · by_cases h2 : h.factory.isFunction
    · cases hr : fr.result with
      | error ex => simp [h1, h2, hr, factoryCalls, hd1, hd2]
      | ok res =>
        by_cases h3 : d.1.callback.truthy
        · by_cases h4 : badSink res
          · simp [h1, h2, hr, h3, h4, factoryCalls, hd1, hd2]
          · cases hc : h.controller with
            | none => simp [h1, h2, hr, h3, h4, hc, factoryCalls, hd1, hd2]
            | some c =>
              by_cases h5 : hasDestroy res <;>
                simp [h1, h2, hr, h3, h4, hc, h5, factoryCalls, factoryCalls_append, hd1, hd2]
        · simp [h1, h2, hr, h3, factoryCalls, hd1, hd2]
    · simp [h1, h2, factoryCalls]

theorem onHeaders_factory (h : StreamHandler) (statusCode : Nat) (headers : Val)
    (fr : FactoryRun) (hs : 200 ≤ statusCode) :
    (onHeaders h statusCode headers fr).handler.factory = .null := by
  have hd := (duringFactory_factory h fr).1
  simp only [onHeaders]
  generalize duringFactory { h with factory := .null } fr = d at hd
  have h1 : ¬ statusCode < 200 := by omega
  by_cases h2 : h.factory.isFunction
  · cases hr : fr.result with
    | error ex => simp [h1, h2, hr, hd]
    | ok res =>
      by_cases h3 : d.1.callback.truthy
      · by_cases h4 : badSink res
        · simp [h1, h2, hr, h3, h4, hd]
        · cases hc : h.controller <;> simp [h1, h2, hr, h3, h4, hc, hd]
      · simp [h1, h2, hr, h3, hd]
  · simp [h1, h2]

theorem after_factoryGuard (x : Exchange) (o : Outcome) (hg : FactoryGuard x.handler o) :
    factoryCalls (x.after o).trace ≤ factoryCalls x.trace + 1 ∧
    (factoryCalls (x.after o).trace = factoryCalls x.trace + 1 →
      (x.after o).handler.factory = .null) ∧
    (x.handler.factory.isFunction = false →
      factoryCalls (x.after o).trace = factoryCalls x.trace) ∧
    ((x.after o).handler.factory = x.handler.factory ∨
      (x.after o).handler.factory = .null) := by
  obtain ⟨h1, h2, h3, h4⟩ := hg
  refine ⟨?_, ?_, ?_, h4⟩
  · simp only [Exchange.after, factoryCalls_append]; omega
  · intro h
    apply h2
    simp only [Exchange.after, factoryCalls_append] at h; omega
  · intro h
    have := h3 h
    simp only [Exchange.after, factoryCalls_append]; omega

theorem deliver_factoryGuard (x : Exchange) (ev : Event) :
    factoryCalls (deliver x ev).trace ≤ factoryCalls x.trace + 1 ∧
    (factoryCalls (deliver x ev).trace = factoryCalls x.trace + 1 →
      (deliver x ev).handler.factory = .null) ∧
    (x.handler.factory.isFunction = false →
      factoryCalls (deliver x ev).trace = factoryCalls x.trace) ∧
    ((deliver x ev).handler.factory = x.handler.factory ∨
      (deliver x ev).handler.factory = .null) := by
  cases ev with
  | onConnect c =>
    exact after_factoryGuard x _
      (quiet_factoryGuard (onConnect_quiet _ c) (onConnect_factoryCalls _ c))
  | onHeaders s hd fr => exact after_factoryGuard x _ (onHeaders_factoryGuard _ s hd fr)
  | onData chunk written =>
    exact after_factoryGuard x _
      (quiet_factoryGuard (onData_quiet _ chunk written) (onData_factoryCalls _ chunk written))
  | onComplete trailers =>
    exact after_factoryGuard x _
      (quiet_factoryGuard (onComplete_quiet _ trailers) (onComplete_factoryCalls _ trailers))
  | onError err =>
    exact after_factoryGuard x _
      (quiet_factoryGuard (onError_quiet _ err) (onError_factoryCalls _ err))
  | finished err readable =>
    simp only [deliver]
    by_cases ha : x.finishedArmed
    · simp only [ha, if_true]
      exact after_factoryGuard x _
        (quiet_factoryGuard (finalize_quiet _ err readable)
          (finalize_factoryCalls _ err readable))
    · simp [ha]
  | drain => simp [deliver, factoryCalls_append, factoryCalls_map_listener]

theorem run_factoryCalls (events : List Event) (x : Exchange) :
    factoryCalls (run x events).trace ≤ factoryCalls x.trace + 1 ∧
    (x.handler.factory.isFunction = false →
      factoryCalls (run x events).trace = factoryCalls x.trace) := by
  induction events generalizing x with
  | nil => simp [run]
  | cons ev events ih =>
    obtain ⟨h1, h2, h3, h4⟩ := deliver_factoryGuard x ev
    obtain ⟨i1, i2⟩ := ih (deliver x ev)
    rw [run_cons]
    refine ⟨?_, ?_⟩
    · by_cases hc : factoryCalls (deliver x ev).trace = factoryCalls x.trace + 1
      · have hn := h2 hc
        have := i2 (by rw [hn]; rfl)
        omega
      · omega
    · intro h
      have hf : (deliver x ev).handler.factory.isFunction = false := by
        rcases h4 with h' | h'
        · rw [h']; exact h
        · rw [h']; rfl
      rw [i2 hf, h3 h]

/-- The `res` field after an event is what it was, or `null`, or the event used
up the factory. -/
theorem deliver_res (x : Exchange) (ev : Event) :
    (deliver x ev).handler.res = x.handler.res ∨ (deliver x ev).handler.res = .null ∨
      (x.handler.factory.isFunction = true ∧ (deliver x ev).handler.factory = .null) := by
  have key : ∀ o : Outcome, Quiet x.handler o →
      (x.after o).handler.res = x.handler.res ∨ (x.after o).handler.res = .null ∨
        (x.handler.factory.isFunction = true ∧ (x.after o).handler.factory = .null) := by
    intro o q
    rcases q.res with h | h
    · exact Or.inl h
    · exact Or.inr (Or.inl h)
  cases ev with
  | onConnect c => exact key _ (onConnect_quiet _ c)
  | onHeaders s hd fr =>
    by_cases hf : x.handler.factory.isFunction
    · by_cases hs : s < 200
      · exact Or.inl (by simp [deliver, Exchange.after, onHeaders, hs])
      · exact Or.inr (Or.inr ⟨hf, onHeaders_factory _ s hd fr (by omega)⟩)
    · exact key _ (onHeaders_quiet_of_no_factory _ s hd fr (by simpa using hf))
  | onData chunk written => exact key _ (onData_quiet _ chunk written)
  | onComplete trailers => exact key _ (onComplete_quiet _ trailers)
  | onError err => exact key _ (onError_quiet _ err)
  | finished err readable =>
    simp only [deliver]
    by_cases ha : x.finishedArmed
    · simp only [ha, if_true]
      exact key _ (finalize_quiet _ err readable)
    · simp [ha]
  | drain => exact Or.inl rfl

theorem storesSink_factory (x : Exchange) (ev : Event) (hst : storesSink x ev = true) :
    x.handler.factory.isFunction = true ∧
      (deliver x ev).handler.factory.isFunction = false := by
  simp only [storesSink, Bool.and_eq_true, Bool.not_eq_true'] at hst
  obtain ⟨h1, h2⟩ := hst
  rcases deliver_res x ev with h | h | ⟨h, h'⟩
  · rw [h, h1] at h2; simp at h2
  · rw [h] at h2; simp at h2
  · exact ⟨h, by rw [h']; rfl⟩

theorem sinkStores_of_no_factory (events : List Event) (x : Exchange)
    (hf : x.handler.factory.isFunction = false) : sinkStores x events = 0 := by
  induction events generalizing x with
  | nil => rfl
  | cons ev events ih =>
    have hst : storesSink x ev = false := by
      by_contra hne
      have := (storesSink_factory x ev (by simpa using hne)).1
      rw [hf] at this; simp at this
    have hf' : (deliver x ev).handler.factory.isFunction = false := by
      rcases (deliver_factoryGuard x ev).2.2.2 with h | h
      · rw [h]; exact hf
      · rw [h]; rfl
    simp [sinkStores, hst, ih _ hf']

theorem sinkStores_le_one (events : List Event) (x : Exchange) : sinkStores x events ≤ 1 := by
  induction events generalizing x with
  | nil => simp [sinkStores]
  | cons ev events ih =>
    by_cases hst : storesSink x ev = true
    · have := sinkStores_of_no_factory events _ (storesSink_factory x ev hst).2
      simp [sinkStores, hst, this]
    · have := ih (deliver x ev)
      simp [sinkStores, hst, this]

/-! ## C12 -/

/-- Claim C12. Whatever events reach one handler, the factory is called at most
once and at most one event stores a sink.  Every `onHeaders` with a status
code of 200 or more and every `onError` leave the factory field `null`; no
event puts a value in it (after an event it holds what it held, or `null`);
and the `res` field takes a new value only in an event that starts with the
factory there and ends with the field cleared. -/
theorem factory_runs_at_most_once (h : StreamHandler) (events : List Event) :
    factoryCalls (run (Exchange.start h) events).trace ≤ 1 ∧
    sinkStores (Exchange.start h) events ≤ 1 ∧
    (∀ (g : StreamHandler) (s : Nat) (hd : Val) (fr : FactoryRun), 200 ≤ s →
      (onHeaders g s hd fr).handler.factory = .null) ∧
    (∀ (g : StreamHandler) (err : Val), (onError g err).handler.factory = .null) ∧
    (∀ (x : Exchange) (ev : Event),
      (deliver x ev).handler.factory = x.handler.factory ∨
        (deliver x ev).handler.factory = .null) ∧
    (∀ (x : Exchange) (ev : Event),
      (deliver x ev).handler.res = x.handler.res ∨ (deliver x ev).handler.res = .null ∨
        (x.handler.factory.isFunction = true ∧ (deliver x ev).handler.factory = .null)) := by
  refine ⟨?_, sinkStores_le_one events _, onHeaders_factory, onError_factory,
    fun x ev => (deliver_factoryGuard x ev).2.2.2, deliver_res⟩
  have := (run_factoryCalls events (Exchange.start h)).1
  have h0 : factoryCalls (Exchange.start h).trace = 0 := rfl
  omega

theorem factory_runs_at_most_once_witness :
    factoryCalls (run (Exchange.start sampleHandler)
      [.onConnect sampleController, .onHeaders 200 .null ⟨none, .ok sampleSink⟩,
        .onHeaders 200 .null ⟨none, .ok sampleSink⟩]).trace ≤ 1 :=
  (factory_runs_at_most_once sampleHandler _).1

/-! ## After the callback was invoked -/

theorem onConnect_invocations (h : StreamHandler) (c : Controller) :
    invocations (onConnect h c).effects = 0 := by
  simp [onConnect, invocations]

theorem onData_invocations (h : StreamHandler) (chunk written : Val) :
    invocations (onData h chunk written).effects = 0 := by
  unfold onData
  cases hg : h.res.get "write" with
  | error e => simp [hg, invocations]
  | ok w =>
    cases hc : h.controller <;> by_cases h1 : w.isFunction <;> by_cases h2 : written.truthy <;>
      simp [hg, hc, h1, h2, invocations]

theorem onComplete_invocations (h : StreamHandler) (trailers : Val) :
    invocations (onComplete h trailers).effects = 0 := by
  unfold onComplete
  cases hg : h.res.get "end" with
  | error e => simp [hg, invocations]
  | ok f => by_cases h1 : f.isFunction <;> simp [hg, h1, invocations]

theorem start_cleared {opts factory callback : Val} {h0 : StreamHandler}
    (hnew : StreamHandler.new opts factory callback = .ok h0) :
    Cleared (Exchange.start h0) := by
  obtain ⟨_, _, _, _, _, _, _, _, rfl⟩ := new_ok hnew
  constructor <;> simp [Exchange.start, invocations]

theorem after_cleared_quiet {x : Exchange} {o : Outcome} (hc : Cleared x)
    (q : Quiet x.handler o) (g : CallbackGuard x.handler o)
    (hf : 1 ≤ invocations o.effects → o.handler.factory.isFunction = false) :
    Cleared (x.after o) := by
  have hshape : o.handler.res.truthy = true ∨ o.handler.res = .null := by
    rcases q.res with h | h
    · rw [h]; exact hc.res_shape
    · exact Or.inr h
  constructor
  · exact hshape
  · intro ha
    have ha' : x.finishedArmed = true := by
      simpa [Exchange.after, q.subscriptions.2] using ha
    obtain ⟨c, hcc⟩ := hc.armed_controller ha'
    exact q.controller c hcc
  · intro hi
    simp only [Exchange.after, invocations_append] at hi
    show o.handler.callback = .null ∧ o.handler.res = .null ∧
      o.handler.factory.isFunction = false
    by_cases hb : 1 ≤ invocations x.trace
    · obtain ⟨h1, h2, h3⟩ := hc.invoked hb
      refine ⟨?_, ?_, ?_⟩
      · rcases q.callback with h | ⟨h, _⟩
        · rw [h]; exact h1
        · exact h
      · rcases q.res with h | h
        · rw [h]; exact h2
        · exact h
      · rcases q.factory with h | h
        · rw [h]; exact h3
        · rw [h]; rfl
    · have ho : 1 ≤ invocations o.effects := by omega
      obtain ⟨g1, g2, g3⟩ := g
      have hone : invocations o.effects = 1 := by omega
      have hct : x.handler.callback.truthy = true := by
        by_contra hne
        have := (g3 (by simpa using hne)).1
        omega
      have hcf := g2 hone
      rcases q.callback with h | ⟨h, hr⟩
      · rw [h, hct] at hcf; simp at hcf
      · refine ⟨h, ?_, hf ho⟩
        rcases hshape with h' | h'
        · rw [h'] at hr; simp at hr
        · exact h'

theorem onHeaders_cleared {x : Exchange} (hi : Inv x) (hc : Cleared x) (statusCode : Nat)
    (headers : Val) (fr : FactoryRun) :
    Cleared (x.after (onHeaders x.handler statusCode headers fr)) := by
  by_cases h2 : x.handler.factory.isFunction
  · by_cases h1 : statusCode < 200
    · have hO : onHeaders x.handler statusCode headers fr = ⟨x.handler, [], none⟩ := by
        simp [onHeaders, h1]
      rw [hO, after_nothing]
      exact hc
    · obtain ⟨hr, hl, ha, hw⟩ := hi.fresh h2
      have hx0 : invocations x.trace = 0 := by
        by_contra hne
        have := (hc.invoked (by omega)).2.2
        rw [h2] at this; simp at this
      obtain ⟨cb, es, hd, hcb, hes, hces⟩ := duringFactory_null x.handler fr hr
      have hcbnull : cb.truthy = false → cb = .null := by
        intro hf
        rcases hcb with h | h
        · rcases hi.callback_fn with h' | h'
          · rw [h, isFunction_truthy h'] at hf; simp at hf
          · rw [h, h']
        · exact h
      have hes0 : cb.truthy = true → invocations es = 0 := by
        intro ht; rw [hces ht]; rfl
      have hesarm : armsFinished es = false := by
        rcases hes with h | ⟨err, h⟩ <;> simp [h, armsFinished]
      simp only [onHeaders, h1, h2, hd]
      cases hres : fr.result with
      | error ex =>
        constructor
        · simp [Exchange.after, hr]
        · simp [Exchange.after, ha, armsFinished, hesarm]
        · intro _
          have : cb = .null := by
            by_cases ht : cb.truthy
            · have := hes0 ht
              simp_all [Exchange.after, invocations_append, invocations]
            · exact hcbnull (by simpa using ht)
          simp [Exchange.after, this, hr]
      | ok res =>
        by_cases h3 : cb.truthy
        · have hz := hes0 h3
          by_cases h4 : badSink res
          · constructor
            · simp [Exchange.after, h3, h4, hr]
            · simp [Exchange.after, h3, h4, ha, armsFinished, hesarm]
            · simp [Exchange.after, h3, h4, invocations_append, invocations, hx0, hz]
          · have hw' := (badSink_eq_false_iff res).1 (by simpa using h4)
            cases hcc : x.handler.controller with
            | none =>
              constructor
              · simp [Exchange.after, h3, h4, hr]
              · simp [Exchange.after, h3, h4, ha, armsFinished, hesarm]
              · simp [Exchange.after, h3, h4, invocations_append, invocations, hx0, hz]
            | some c =>
              by_cases h5 : hasDestroy res <;>
              · constructor
                · simp [Exchange.after, h3, h4, h5, hw'.1]
                · simp [Exchange.after, h3, h4, h5]
                · simp [Exchange.after, h3, h4, h5, invocations_append, invocations, hx0, hz]
        · have hn := hcbnull (by simpa using h3)
          constructor
          · simp [Exchange.after, h3, hr]
          · simp [Exchange.after, h3, ha, armsFinished, hesarm]
          · simp [Exchange.after, h3, hn, hr]
  · exact after_cleared_quiet hc
      (onHeaders_quiet_of_no_factory _ statusCode headers fr (by simpa using h2))
      (onHeaders_guard _ statusCode headers fr)
      (fun _ => by
        rcases (onHeaders_factoryGuard x.handler statusCode headers fr).2.2.2 with h | h
        · rw [h]; simpa using h2
        · rw [h]; rfl)

theorem deliver_cleared {x : Exchange} (hi : Inv x) (hc : Cleared x) (ev : Event) :
    Cleared (deliver x ev) := by
  cases ev with
  | onConnect c =>
    exact after_cleared_quiet hc (onConnect_quiet _ c) (onConnect_guard _ c)
      (fun h => by rw [onConnect_invocations] at h; omega)
  | onHeaders s hd fr => exact onHeaders_cleared hi hc s hd fr
  | onData chunk written =>
    exact after_cleared_quiet hc (onData_quiet _ chunk written) (onData_guard _ chunk written)
      (fun h => by rw [onData_invocations] at h; omega)
  | onComplete trailers =>
    exact after_cleared_quiet hc (onComplete_quiet _ trailers) (onComplete_guard _ trailers)
      (fun h => by rw [onComplete_invocations] at h; omega)
  | onError err =>
    exact after_cleared_quiet hc (onError_quiet _ err) (onError_guard _ err)
      (fun _ => by rw [onError_factory]; rfl)
  | finished err readable =>
    simp only [deliver]
    by_cases ha : x.finishedArmed
    · simp only [ha, if_true]
      have hnf : x.handler.factory.isFunction = false := by
        by_contra hne
        have := (hi.fresh (by simpa using hne)).2.2.1
        rw [ha] at this; simp at this
      have hq := finalize_quiet x.handler err readable
      have := after_cleared_quiet hc hq (finalize_guard _ err readable)
        (fun _ => by
          rcases hq.factory with h | h
          · rw [h]; exact hnf
          · rw [h]; rfl)
      exact ⟨this.res_shape, fun h => by simp at h, this.invoked⟩
    · simpa [ha] using hc
  | drain =>
    exact ⟨hc.res_shape, hc.armed_controller, fun h => hc.invoked (by
      simpa [deliver, invocations_append, invocations_map_listener] using h)⟩

theorem run_inv_cleared (events : List Event) {x : Exchange} (hi : Inv x) (hc : Cleared x) :
    Cleared (run x events) := by
  induction events generalizing x with
  | nil => exact hc
  | cons ev events ih => exact ih (deliver_inv hi ev) (deliver_cleared hi hc ev)

theorem reached_cleared {x : Exchange} (hx : Reached x) : Cleared x := by
  obtain ⟨opts, factory, callback, h0, pre, hnew, hcb, rfl⟩ := hx
  exact run_inv_cleared pre (start_inv hnew hcb) (start_cleared hnew)

/-- No event clears the controller. -/
theorem deliver_controller (x : Exchange) (ev : Event) (c : Controller)
    (hc : x.handler.controller = some c) : ∃ d, (deliver x ev).handler.controller = some d := by
  cases ev with
  | onConnect c' => exact (onConnect_quiet _ c').controller c hc
  | onHeaders s hd fr =>
    exact ⟨c, by simp [deliver, Exchange.after, onHeaders_controller, hc]⟩
  | onData chunk written => exact (onData_quiet _ chunk written).controller c hc
  | onComplete trailers => exact (onComplete_quiet _ trailers).controller c hc
  | onError err => exact (onError_quiet _ err).controller c hc
  | finished err readable =>
    simp only [deliver]
    by_cases ha : x.finishedArmed
    · simp only [ha, if_true]
      exact (finalize_quiet _ err readable).controller c hc
    · exact ⟨c, by simpa [ha] using hc⟩
  | drain => exact ⟨c, hc⟩

theorem sampleDone_reached : Reached sampleDone :=
  ⟨sampleOpts, .fn 1, .fn 2, sampleHandler, _, rfl, rfl, rfl⟩

/-! ## C13 -/

/-- Claim C13, as written, fails. After a whole exchange (connect, headers
that accept the sink, `onComplete`, finished notification) the callback has
been invoked once and the handler still holds the controller of
`onConnect`: no line of the source assigns `this.controller` but line 36. -/
theorem controller_kept_after_callback :
    Reached sampleDone ∧ invocations sampleDone.trace = 1 ∧
    sampleDone.handler.controller = some sampleController ∧
    sampleDone.handler.controller ≠ none :=
  ⟨sampleDone_reached, rfl, rfl, by
    rw [show sampleDone.handler.controller = some sampleController from rfl]
    exact Option.some_ne_none _⟩

/-- Claim C13, amended. In every exchange reached from a constructed handler,
once the completion callback has been invoked (at once by Finalize or
deferred by `onError`), the `res` field and the `callback` field are `null`.
The controller is not among the cleared fields: no event clears it. -/
theorem sink_and_callback_cleared_after_callback (x : Exchange) (hx : Reached x)
    (hinv : 1 ≤ invocations x.trace) :
    x.handler.res = .null ∧ x.handler.callback = .null ∧
    (∀ (ev : Event) (c : Controller), x.handler.controller = some c →
      ∃ d, (deliver x ev).handler.controller = some d) := by
  obtain ⟨h1, h2, _⟩ := (reached_cleared hx).invoked hinv
  exact ⟨h2, h1, fun ev c hc => deliver_controller x ev c hc⟩

theorem sink_and_callback_cleared_after_callback_witness :
    Reached sampleDone ∧ 1 ≤ invocations sampleDone.trace ∧
    sampleDone.handler.res = .null ∧ sampleDone.handler.callback = .null :=
  ⟨sampleDone_reached, by decide,
    (sink_and_callback_cleared_after_callback sampleDone sampleDone_reached (by decide)).1,
    (sink_and_callback_cleared_after_callback sampleDone sampleDone_reached (by decide)).2.1⟩

theorem sampleTwiceFailed_reached : Reached sampleTwiceFailed :=
  ⟨sampleOpts, .fn 1, .fn 2, sampleHandler,
    [.onConnect sampleController, .onHeaders 200 .null ⟨none, .ok sampleSink⟩,
      .onError (.str "e1"), .onError (.str "e2")], rfl, rfl, rfl⟩

theorem sampleFailed_reached : Reached sampleFailed :=
  ⟨sampleOpts, .fn 1, .fn 2, sampleHandler,
    [.onConnect sampleController, .onHeaders 200 .null ⟨none, .ok sampleSink⟩,
      .onError (.str "e1")], rfl, rfl, rfl⟩

/-! ## C14 -/

/-- Claim C14: what the code does. When the callback field holds no function
as the finished notification runs, the Finalize routine invokes no callback
but it throws: line 80 calls the `callback` it read from `this`, which is
`null`, and a `TypeError` results (the routine has no test like those of
lines 51 and 113).  With an error and a controller, `util.destroy` and
`controller.error(err)` have been called before the throw. -/
theorem finalize_with_cleared_callback_throws (h : StreamHandler) (err readable : Val)
    (hcb : h.callback.isFunction = false) :
    (finalize h err readable).thrown ≠ none ∧
    invocations (finalize h err readable).effects = 0 ∧
    (∀ c, h.controller = some c → err.truthy = true →
      finalize h err readable =
        ⟨{ h with res := .null, callback := .null },
          [.destroy h.res h.res, .signalError c.error err], some Val.typeError⟩) := by
  refine ⟨?_, ?_, ?_⟩
  · unfold finalize
    by_cases h1 : err.truthy
    · cases hc : h.controller <;> simp [hc, h1, hcb]
    · cases hg : h.res.get "readable" <;> simp [hg, h1, hcb]
  · unfold finalize
    by_cases h1 : err.truthy
    · cases hc : h.controller <;> simp [hc, h1, hcb, invocations]
    · cases hg : h.res.get "readable" <;> by_cases h2 : readable.truthy <;>
        simp [hg, h1, h2, hcb, invocations]
  · intro c hc h1
    simp [finalize, hc, h1, hcb]

theorem finalize_with_cleared_callback_throws_witness :
    Reached sampleTwiceFailed ∧ sampleTwiceFailed.finishedArmed = true ∧
    sampleTwiceFailed.handler.callback.isFunction = false ∧
    invocations sampleTwiceFailed.trace = 1 ∧
    finalize sampleTwiceFailed.handler (.str "e3") .undefined =
      ⟨{ sampleTwiceFailed.handler with res := .null, callback := .null },
        [.destroy sampleTwiceFailed.handler.res sampleTwiceFailed.handler.res,
          .signalError sampleController.error (.str "e3")], some Val.typeError⟩ ∧
    (deliver sampleTwiceFailed (.finished (.str "e3") .undefined)).thrown = [Val.typeError] :=
  ⟨sampleTwiceFailed_reached, rfl, rfl, rfl,
    (finalize_with_cleared_callback_throws sampleTwiceFailed.handler (.str "e3") .undefined
      rfl).2.2 sampleController rfl rfl, rfl⟩

/-! ## C15 -/

/-- Claim C15. With a stored sink, `onComplete(trailers)` records
`trailers || {}` (the trailers given when they are truthy, an empty object
when they are `undefined` or `null`), makes one call, `res.end()`, and throws
nothing; the sink, the callback, the controller and the factory are as
before, and the callback is not invoked. -/
theorem onComplete_records_and_ends (h : StreamHandler) (trailers : Val)
    (hsink : IsWritable h.res) :
    onComplete h trailers =
      ⟨{ h with trailers := recordedTrailers trailers }, [.endSink h.res], none⟩ ∧
    (trailers.truthy = true → recordedTrailers trailers = trailers) ∧
    recordedTrailers .undefined = .obj [] ∧ recordedTrailers .null = .obj [] ∧
    invocations (onComplete h trailers).effects = 0 := by
  obtain ⟨_, _, ⟨e, he1, he2⟩, _⟩ := hsink
  have hO : onComplete h trailers =
      ⟨{ h with trailers := recordedTrailers trailers }, [.endSink h.res], none⟩ := by
    simp [onComplete, he1, he2, recordedTrailers]
  refine ⟨hO, ?_, rfl, rfl, ?_⟩
  · intro ht; simp [recordedTrailers, ht]
  · simp [hO, invocations]

theorem onComplete_records_and_ends_witness :
    IsWritable sampleAccepted.handler.res ∧
    onComplete sampleAccepted.handler .undefined =
      ⟨{ sampleAccepted.handler with trailers := recordedTrailers .undefined },
        [.endSink sampleAccepted.handler.res], none⟩ :=
  ⟨sampleSink_writable,
    (onComplete_records_and_ends sampleAccepted.handler .undefined sampleSink_writable).1⟩

/-! ## The Finalize routine with a pending callback (C16) -/

theorem finalize_with_error (h : StreamHandler) (c : Controller) (err readable : Val)
    (hcb : h.callback.isFunction = true) (hc : h.controller = some c)
    (herr : err.truthy = true) :
    finalize h err readable =
      ⟨{ h with res := .null, callback := .null },
        [.destroy h.res h.res, .signalError c.error err, .callback h.callback err .null],
        none⟩ := by
  simp [finalize, hc, herr, hcb]

theorem finalize_without_error (h : StreamHandler) (err readable : Val)
    (hcb : h.callback.isFunction = true) (hres : h.res.truthy = true)
    (herr : err.truthy = false) :
    finalize h err readable =
      ⟨{ h with res := .null, callback := .null },
        (if readable.truthy then [] else [.destroy h.res h.res]) ++
          [.callback h.callback err (payload h.opaqueValue h.trailers)],
        none⟩ := by
  obtain ⟨r, hr⟩ := get_of_truthy hres "readable"
  by_cases h2 : readable.truthy <;> simp [finalize, herr, hcb, hr, h2, payload]

/-- Where the Finalize routine does what is expected of it: in a reached
exchange whose finished notification is registered and whose callback is
pending, when the sink finished with an error or is still stored, `controller.error(err)` is called exactly when
`err` is truthy, the callback is then invoked with `(err, null)` in that
case and with `(err, { opaque, trailers })` otherwise, the `res` and
`callback` fields are cleared, and nothing is thrown. -/
theorem finalize_pending (x : Exchange) (err readable : Val) (hx : Reached x)
    (ha : x.finishedArmed = true) (hcb : x.handler.callback.isFunction = true)
    (hok : err.truthy = true ∨ x.handler.res.truthy = true) :
    ∃ c, x.handler.controller = some c ∧
      finalize x.handler err readable =
        ⟨{ x.handler with res := .null, callback := .null },
          (if err.truthy || !readable.truthy then
              [Effect.destroy x.handler.res x.handler.res] else []) ++
            (if err.truthy then [Effect.signalError c.error err] else []) ++
            [.callback x.handler.callback err
              (if err.truthy then .null
                else payload x.handler.opaqueValue x.handler.trailers)],
          none⟩ := by
  obtain ⟨c, hc⟩ := (reached_cleared hx).armed_controller ha
  refine ⟨c, hc, ?_⟩
  by_cases herr : err.truthy
  · rw [finalize_with_error _ c err readable hcb hc herr]
    simp [herr]
  · have hres : x.handler.res.truthy = true := by
      rcases hok with h | h
      · exact absurd h herr
      · exact h
    rw [finalize_without_error _ err readable hcb hres (by simpa using herr)]
    by_cases h2 : readable.truthy <;> simp [herr, h2]

/-! ## C16 -/

/-- Claim C16: where the code departs from it. With no sink stored (as after an
`onError`, which clears `this.res` and leaves the callback pending) and no
finish error, the Finalize routine reads `res.readable` on the `null` it took
from `this.res` (line 71) and throws a `TypeError` before any call: a pending
callback is not invoked and the callback field is not cleared. -/
theorem finalize_without_sink_or_error (h : StreamHandler) (err readable : Val)
    (hres : h.res = .null) (herr : err.truthy = false) :
    finalize h err readable = ⟨{ h with res := .null }, [], some Val.typeError⟩ := by
  simp [finalize, herr, hres, Val.get]

/-- The sample exchange after `onConnect`, headers that accept the sink and an
`onError`: a finished notification without error runs the Finalize routine
with a pending callback, which throws a `TypeError` at line 71, invokes no
callback and leaves the callback field as it was. -/
theorem finalize_pending_throws_after_onError :
    Reached sampleFailed ∧ sampleFailed.finishedArmed = true ∧
    sampleFailed.handler.callback.isFunction = true ∧
    finalize sampleFailed.handler .undefined .undefined =
      ⟨{ sampleFailed.handler with res := .null }, [], some Val.typeError⟩ ∧
    invocations (deliver sampleFailed (.finished .undefined .undefined)).trace = 0 ∧
    (deliver sampleFailed (.finished .undefined .undefined)).handler.callback = .fn 2 ∧
    (deliver sampleFailed (.finished .undefined .undefined)).thrown = [Val.typeError] :=
  ⟨sampleFailed_reached, rfl, rfl,
    finalize_without_sink_or_error sampleFailed.handler .undefined .undefined rfl rfl,
    rfl, rfl, rfl⟩

theorem finalize_pending_witness :
    Reached sampleAccepted ∧ sampleAccepted.finishedArmed = true ∧
    sampleAccepted.handler.callback.isFunction = true ∧
    sampleAccepted.handler.res.truthy = true ∧
    ∃ c, sampleAccepted.handler.controller = some c ∧
      finalize sampleAccepted.handler .undefined .undefined =
        ⟨{ sampleAccepted.handler with res := .null, callback := .null },
          (if Val.undefined.truthy || !Val.undefined.truthy then
              [Effect.destroy sampleAccepted.handler.res sampleAccepted.handler.res]
            else []) ++
            (if Val.undefined.truthy then [Effect.signalError c.error .undefined] else []) ++
            [.callback sampleAccepted.handler.callback .undefined
              (if Val.undefined.truthy then .null
                else payload sampleAccepted.handler.opaqueValue
                  sampleAccepted.handler.trailers)],
          none⟩ :=
  ⟨sampleAccepted_reached, rfl, rfl, rfl,
    finalize_pending sampleAccepted .undefined .undefined sampleAccepted_reached rfl rfl
      (Or.inr rfl)⟩

/-! ## C17 -/

/-- Claim C17. An `onHeaders` with a status code of 200 or more whose factory
runs and returns `res`, and after which the callback field is falsy, returns
normally whatever `res` is: nothing is thrown, the handler is the one the
factory run left, and `onHeaders` adds but the call of the factory to the
calls of that run.  With no sink stored before (as in every reached exchange
whose factory is still there), those are at most the deferred delivery
`process.nextTick(callback, err, null)` of the abort: nothing is subscribed,
destroyed or stored, the callback is not called at once and the controller
is not used. -/
theorem onHeaders_after_abort (h : StreamHandler) (statusCode : Nat) (headers res : Val)
    (fr : FactoryRun) (hs : 200 ≤ statusCode) (hf : h.factory.isFunction = true)
    (hres : fr.result = .ok res)
    (hcb : (duringFactory { h with factory := .null } fr).1.callback.truthy = false) :
    onHeaders h statusCode headers fr =
      ⟨(duringFactory { h with factory := .null } fr).1,
        .factory h.factory (factoryArg statusCode headers h.opaqueValue) ::
          (duringFactory { h with factory := .null } fr).2, none⟩ ∧
    (h.res = .null →
      ∃ cb es, onHeaders h statusCode headers fr =
          ⟨{ h with factory := .null, callback := cb },
            .factory h.factory (factoryArg statusCode headers h.opaqueValue) :: es, none⟩ ∧
        cb.truthy = false ∧
        (es = [] ∨ ∃ err, es = [.nextTick h.callback err .null])) := by
  have h1 : ¬ statusCode < 200 := by omega
  have hO : onHeaders h statusCode headers fr =
      ⟨(duringFactory { h with factory := .null } fr).1,
        .factory h.factory (factoryArg statusCode headers h.opaqueValue) ::
          (duringFactory { h with factory := .null } fr).2, none⟩ := by
    simp only [onHeaders]
    generalize duringFactory { h with factory := .null } fr = d at hcb
    simp [h1, hf, hres, hcb, factoryArg]
  refine ⟨hO, ?_⟩
  intro hr
  obtain ⟨cb, es, hd, _, hes, _⟩ := duringFactory_null h fr hr
  rw [hd] at hcb
  exact ⟨cb, es, by rw [hO, hd], hcb, hes⟩

theorem onHeaders_after_abort_witness :
    200 ≤ 200 ∧ sampleHandler.factory.isFunction = true ∧
    onHeaders sampleHandler 200 .null ⟨some (.str "abort"), .ok sampleBadSink⟩ =
      ⟨{ sampleHandler with factory := .null, callback := .null },
        [.factory (.fn 1) (factoryArg 200 .null (.str "token")),
          .nextTick (.fn 2) (.str "abort") .null], none⟩ :=
  ⟨le_refl _, rfl,
    (onHeaders_after_abort sampleHandler 200 .null sampleBadSink
      ⟨some (.str "abort"), .ok sampleBadSink⟩ (le_refl _) rfl rfl rfl).1⟩

/-! ## C19 -/

/-- Claim C19: what the code does. With the accepted sink still stored, a
finish error `err`, a controller and a pending callback, the Finalize routine
calls `util.destroy(res, res)` (line 72): the target is the stored sink, and
so is the reason, which is not `err`; `onError` (line 112) calls
`util.destroy(res, err)`. -/
theorem finalize_destroys_with_sink_as_reason (h : StreamHandler) (c : Controller)
    (err readable : Val) (hsink : h.res.truthy = true) (herr : err.truthy = true)
    (hc : h.controller = some c) (hcb : h.callback.isFunction = true) :
    (finalize h err readable).effects =
      [.destroy h.res h.res, .signalError c.error err, .callback h.callback err .null] ∧
    (onError h err).effects = [.destroy h.res err] := by
  refine ⟨by rw [finalize_with_error h c err readable hcb hc herr], ?_⟩
  simp [onError, hsink]

theorem finalize_destroys_with_sink_as_reason_witness :
    sampleAccepted.handler.res = sampleSink ∧
    (finalize sampleAccepted.handler (.str "boom") .undefined).effects =
      [.destroy sampleSink sampleSink, .signalError 5 (.str "boom"),
        .callback (.fn 2) (.str "boom") .null] ∧
    (onError sampleAccepted.handler (.str "boom")).effects =
      [.destroy sampleSink (.str "boom")] :=
  ⟨rfl,
    (finalize_destroys_with_sink_as_reason sampleAccepted.handler sampleController
      (.str "boom") .undefined rfl rfl rfl rfl).1,
    (finalize_destroys_with_sink_as_reason sampleAccepted.handler sampleController
      (.str "boom") .undefined rfl rfl rfl rfl).2⟩

/-! ## An exchange in the order of the transport -/

theorem waiting_start {opts factory callback : Val} {h0 : StreamHandler}
    (hnew : StreamHandler.new opts factory callback = .ok h0)
    (hcb : callback.isFunction = true) : Waiting (Exchange.start h0) := by
  obtain ⟨_, _, hf, _, _, _, _, _, rfl⟩ := new_ok hnew
  constructor <;> simp [Exchange.start, hcb, hf]

theorem waiting_connect {x : Exchange} (w : Waiting x) (c : Controller) :
    Waiting (deliver x (.onConnect c)) ∧
      (deliver x (.onConnect c)).handler.controller = some c := by
  refine ⟨?_, rfl⟩
  constructor <;>
    simp [deliver, Exchange.after, onConnect, drainListenersOf, armsFinished, w.thrown, w.res,
      w.unarmed, w.callback, w.factory]

theorem deliver_informational (x : Exchange) (statusCode : Nat) (headers : Val)
    (fr : FactoryRun) (hs : statusCode < 200) :
    deliver x (.onHeaders statusCode headers fr) = x := by
  have hO : onHeaders x.handler statusCode headers fr = ⟨x.handler, [], none⟩ := by
    simp [onHeaders, hs]
  simp only [deliver, hO]
  exact after_nothing x

theorem waiting_accept {x : Exchange} (w : Waiting x) (c : Controller)
    (hc : x.handler.controller = some c) (statusCode : Nat) (headers sink : Val)
    (hs : 200 ≤ statusCode) (hsink : IsWritable sink) :
    Streaming (deliver x (.onHeaders statusCode headers ⟨none, .ok sink⟩)) := by
  have hb := (badSink_eq_false_iff sink).2 hsink
  have h1 : ¬ statusCode < 200 := by omega
  have ht := isFunction_truthy w.callback
  by_cases hd : hasDestroy sink <;>
    constructor <;>
    simp [deliver, Exchange.after, onHeaders, duringFactory, h1, w.factory, ht, hb, hc, hd,
      armsFinished, w.thrown, w.callback, hsink]

theorem streaming_data {x : Exchange} (w : Streaming x) (chunk written : Val) :
    Streaming (deliver x (.onData chunk written)) := by
  obtain ⟨c, hc⟩ := w.controller
  rw [deliver_onData_stored x c chunk written w.sink hc]
  exact ⟨w.thrown, w.sink, w.armed, ⟨c, hc⟩, w.callback⟩

theorem streaming_complete {x : Exchange} (w : Streaming x) (trailers : Val) :
    Streaming (deliver x (.onComplete trailers)) := by
  obtain ⟨_, _, ⟨e, he1, he2⟩, _⟩ := id w.sink
  obtain ⟨c, hc⟩ := w.controller
  constructor <;>
    simp [deliver, Exchange.after, onComplete, he1, he2, armsFinished, w.thrown, w.armed, hc,
      w.callback, w.sink]

theorem streaming_finish {x : Exchange} (w : Streaming x) (err readable : Val) :
    Finished (deliver x (.finished err readable)) := by
  obtain ⟨c, hc⟩ := w.controller
  simp only [deliver, w.armed, if_true]
  by_cases herr : err.truthy
  · rw [finalize_with_error _ c err readable w.callback hc herr]
    constructor <;> simp [Exchange.after, w.thrown]
  · rw [finalize_without_error _ err readable w.callback w.sink.1 (by simpa using herr)]
    constructor <;> simp [Exchange.after, w.thrown]

theorem waiting_cut {x : Exchange} (w : Waiting x) (transportErr err readable : Val) :
    (run x [.onError transportErr, .finished err readable]).thrown = [] := by
  simp [run, deliver, Exchange.after, onError, w.res, w.callback, isFunction_truthy w.callback,
    w.unarmed, armsFinished, w.thrown]

theorem streaming_cut {x : Exchange} (w : Streaming x) (transportErr err readable : Val)
    (herr : err.truthy = true) :
    (run x [.onError transportErr, .finished err readable]).thrown = [] := by
  obtain ⟨c, hc⟩ := w.controller
  simp [run, deliver, Exchange.after, onError, w.sink.1, w.armed, finalize, herr, hc, w.callback,
    w.thrown]

theorem finished_cut {x : Exchange} (w : Finished x) (transportErr err readable : Val) :
    (run x [.onError transportErr, .finished err readable]).thrown = [] := by
  simp [run, deliver, Exchange.after, onError, w.res, w.callback, w.unarmed, armsFinished,
    w.thrown]

/-- From a streaming exchange, every prefix of the rest of the ordered events
leaves the exchange streaming or over. -/
theorem streaming_initial_segment (writes : List (Val × Val)) (trailers err readable : Val)
    {x : Exchange} (w : Streaming x) (pre : List Event)
    (hpre : pre <+: writes.map (fun p => Event.onData p.1 p.2) ++
      [.onComplete trailers, .finished err readable]) :
    Streaming (run x pre) ∨ Finished (run x pre) := by
  induction writes generalizing x pre with
  | nil =>
    cases pre with
    | nil => exact Or.inl w
    | cons p pre =>
      simp only [List.map_nil, List.nil_append] at hpre
      obtain ⟨hp, hrest⟩ := List.cons_prefix_cons.1 hpre
      clear hpre
      subst hp
      cases pre with
      | nil => exact Or.inl (streaming_complete w trailers)
      | cons q pre =>
        obtain ⟨hq, hrest2⟩ := List.cons_prefix_cons.1 hrest
        clear hrest
        subst hq
        have hnil : pre = [] := List.prefix_nil.1 hrest2
        subst hnil
        exact Or.inr (streaming_finish (streaming_complete w trailers) err readable)
  | cons d writes ih =>
    cases pre with
    | nil => exact Or.inl w
    | cons p pre =>
      simp only [List.map_cons, List.cons_append] at hpre
      obtain ⟨hp, hrest⟩ := List.cons_prefix_cons.1 hpre
      clear hpre
      subst hp
      rw [run_cons]
      exact ih (streaming_data w d.1 d.2) pre hrest

/-- From a connected exchange that waits for the headers, every prefix of the
rest of the ordered events leaves the exchange waiting, streaming or over. -/
theorem waiting_initial_segment (infos : List (Nat × Val × FactoryRun)) (c : Controller)
    (statusCode : Nat) (headers sink : Val) (writes : List (Val × Val))
    (trailers err readable : Val) (hinfos : ∀ p ∈ infos, p.1 < 200)
    (hs : 200 ≤ statusCode) (hsink : IsWritable sink)
    {x : Exchange} (w : Waiting x) (hc : x.handler.controller = some c) (pre : List Event)
    (hpre : pre <+: informational infos ++
      Event.onHeaders statusCode headers ⟨none, .ok sink⟩ ::
        (writes.map (fun p => Event.onData p.1 p.2) ++
          [.onComplete trailers, .finished err readable])) :
    Waiting (run x pre) ∨ Streaming (run x pre) ∨ Finished (run x pre) := by
  induction infos generalizing pre with
  | nil =>
    cases pre with
    | nil => exact Or.inl w
    | cons p pre =>
      simp only [informational, List.map_nil, List.nil_append] at hpre
      obtain ⟨hp, hrest⟩ := List.cons_prefix_cons.1 hpre
      clear hpre
      subst hp
      rw [run_cons]
      exact Or.inr (streaming_initial_segment writes trailers err readable
        (waiting_accept w c hc statusCode headers sink hs hsink) pre hrest)
  | cons i infos ih =>
    cases pre with
    | nil => exact Or.inl w
    | cons p pre =>
      simp only [informational, List.map_cons, List.cons_append] at hpre
      obtain ⟨hp, hrest⟩ := List.cons_prefix_cons.1 hpre
      clear hpre
      subst hp
      rw [run_cons, deliver_informational x _ _ _ (hinfos i (List.mem_cons_self _ _))]
      exact ih (fun p hp => hinfos p (List.mem_cons_of_mem _ hp)) pre hrest

/-! ## C18 -/

/-- Claim C18. Take a handler built with a function callback and the events
in the order of the transport: `onConnect`, informational headers, headers
with a status code of 200 or more whose factory returns a value with function
`write`, `end` and `on`, any `onData`, `onComplete`, the finished
notification.  Delivering any prefix of them, the whole sequence included,
makes no method throw; nor does a prefix cut short by one `onError` after
which the sink, if one was accepted, reports finished with an error. -/
theorem ordered_exchange_never_faults (opts factory callback : Val) (h0 : StreamHandler)
    (c : Controller) (infos : List (Nat × Val × FactoryRun)) (statusCode : Nat)
    (headers sink : Val) (writes : List (Val × Val)) (trailers err readable : Val)
    (transportErr finishErr finishReadable : Val) (pre : List Event)
    (hnew : StreamHandler.new opts factory callback = .ok h0)
    (hcb : callback.isFunction = true)
    (hinfos : ∀ p ∈ infos, p.1 < 200)
    (hs : 200 ≤ statusCode)
    (hsink : IsWritable sink)
    (hfinish : finishErr.truthy = true)
    (hpre : pre <+: orderedExchange c infos statusCode headers sink writes trailers err
      readable) :
    (run (Exchange.start h0) pre).thrown = [] ∧
    (run (Exchange.start h0) (cutShort pre transportErr finishErr finishReadable)).thrown
      = [] := by
  have w0 := waiting_start hnew hcb
  have key : Waiting (run (Exchange.start h0) pre) ∨ Streaming (run (Exchange.start h0) pre) ∨
      Finished (run (Exchange.start h0) pre) := by
    cases pre with
    | nil => exact Or.inl w0
    | cons p pre =>
      obtain ⟨hp, hrest⟩ := List.cons_prefix_cons.1 hpre
      clear hpre
      subst hp
      rw [run_cons]
      obtain ⟨w1, hc1⟩ := waiting_connect w0 c
      exact waiting_initial_segment infos c statusCode headers sink writes trailers err readable hinfos
        hs hsink w1 hc1 pre hrest
  unfold cutShort
  rw [run_append]
  rcases key with w | w | w
  · exact ⟨w.thrown, waiting_cut w _ _ _⟩
  · exact ⟨w.thrown, streaming_cut w _ _ _ hfinish⟩
  · exact ⟨w.thrown, finished_cut w _ _ _⟩

theorem ordered_exchange_never_faults_witness :
    StreamHandler.new sampleOpts (.fn 1) (.fn 2) = .ok sampleHandler ∧
    IsWritable sampleSink ∧ (Val.str "closed").truthy = true ∧
    (run (Exchange.start sampleHandler)
      (orderedExchange sampleController [(100, .null, ⟨none, .ok .null⟩)] 200 .null sampleSink
        [(.str "ab", .bool false)] .undefined .undefined .undefined)).thrown = [] ∧
    (run (Exchange.start sampleHandler)
      (cutShort
        (orderedExchange sampleController [(100, .null, ⟨none, .ok .null⟩)] 200 .null
          sampleSink [(.str "ab", .bool false)] .undefined .undefined .undefined)
        (.str "reset") (.str "closed") .undefined)).thrown = [] :=
  ⟨rfl, sampleSink_writable, rfl,
    ordered_exchange_never_faults sampleOpts (.fn 1) (.fn 2) sampleHandler sampleController
      [(100, .null, ⟨none, .ok .null⟩)] 200 .null sampleSink [(.str "ab", .bool false)]
      .undefined .undefined .undefined (.str "reset") (.str "closed") .undefined _ rfl rfl
      (by simp) (le_refl _) sampleSink_writable rfl (List.prefix_refl _)⟩

/-! ## C2: the first argument of the callback -/

/-- Claim C2, as written, fails. After a whole exchange whose finished
notification carries no error (`undefined`, the argument a listener gets when
it is called without one) and whose `onComplete` got no trailers, the
callback is invoked with `(undefined, { opaque, trailers: {} })`: line 80
hands over the `err` it received, not `null`. -/
theorem successful_exchange_callback_gets_undefined :
    sampleDone.trace.filter Effect.isConsumerCall =
      [.endSink sampleSink,
        .callback (.fn 2) .undefined (payload (.str "token") (.obj []))] ∧
    sampleDone.trace.filter Effect.isConsumerCall ≠
      [.endSink sampleSink,
        .callback (.fn 2) .null (payload (.str "token") (.obj []))] ∧
    sampleDone.trace.filter Effect.isConsumerCall ≠
      [.endSink sampleSink,
        .callback (.fn 2) .null (payload (.str "token") .undefined)] := by
  have h : sampleDone.trace.filter Effect.isConsumerCall =
      [.endSink sampleSink,
        .callback (.fn 2) .undefined (payload (.str "token") (.obj []))] := rfl
  refine ⟨h, ?_, ?_⟩ <;>
  · rw [h]
    intro hne
    simp at hne

/-! ## C3 -/

/-- Claim C3: what the code does. In an exchange that holds an accepted sink,
`onError(err)` clears the stored sink (and the factory), calls
`util.destroy(sink, err)` and nothing else, and throws nothing.  When the
sink's finished notification then comes with `err`: for a truthy `err` the
callback is invoked with `(err, null)`, the one invocation of the exchange;
for a falsy `err` the Finalize routine reads `res.readable` on the `null`
that `onError` stored (line 71) and throws a `TypeError`, so the pending
callback is not invoked. -/
theorem onError_with_sink_then_finished (x : Exchange) (err readable : Val)
    (hx : Reached x) (hsink : x.handler.res.truthy = true) :
    onError x.handler err =
      ⟨{ x.handler with factory := .null, res := .null },
        [.destroy x.handler.res err], none⟩ ∧
    x.handler.callback.isFunction = true ∧
    (err.truthy = true →
      (∃ c, x.handler.controller = some c ∧
        (deliver (deliver x (.onError err)) (.finished err readable)).trace =
          x.trace ++ [.destroy x.handler.res err, .destroy .null .null,
            .signalError c.error err, .callback x.handler.callback err .null]) ∧
      invocations (deliver (deliver x (.onError err)) (.finished err readable)).trace = 1 ∧
      (deliver (deliver x (.onError err)) (.finished err readable)).thrown = x.thrown) ∧
    (err.truthy = false →
      (deliver (deliver x (.onError err)) (.finished err readable)).trace =
        x.trace ++ [.destroy x.handler.res err] ∧
      (deliver (deliver x (.onError err)) (.finished err readable)).thrown =
        x.thrown ++ [Val.typeError] ∧
      (deliver (deliver x (.onError err)) (.finished err readable)).handler.callback =
        x.handler.callback) := by
  obtain ⟨ha, ⟨c, hc⟩, hcb, _, _⟩ := (reached_inv hx).stored hsink
  have hE : onError x.handler err =
      ⟨{ x.handler with factory := .null, res := .null },
        [.destroy x.handler.res err], none⟩ := by
    simp [onError, hsink]
  refine ⟨hE, hcb, ?_, ?_⟩
  · intro herr
    obtain ⟨_, _, h3, h4, h5, _⟩ := onError_with_sink x err readable hx hsink herr
    exact ⟨h3, h4, h5⟩
  · intro herr
    refine ⟨?_, ?_, ?_⟩ <;>
      simp [deliver, hE, Exchange.after, ha, armsFinished, finalize, herr, Val.get]

theorem onError_with_sink_then_finished_witness :
    Reached sampleAccepted ∧ sampleAccepted.handler.res.truthy = true ∧
    Val.undefined.truthy = false ∧
    sampleAccepted.handler.callback = .fn 2 ∧
    (deliver (deliver sampleAccepted (.onError .undefined))
      (.finished .undefined .undefined)).trace =
        sampleAccepted.trace ++ [.destroy sampleAccepted.handler.res .undefined] ∧
    (deliver (deliver sampleAccepted (.onError .undefined))
      (.finished .undefined .undefined)).thrown =
        sampleAccepted.thrown ++ [Val.typeError] ∧
    (deliver (deliver sampleAccepted (.onError .undefined))
      (.finished .undefined .undefined)).handler.callback =
        sampleAccepted.handler.callback :=
  ⟨sampleAccepted_reached, rfl, rfl, rfl,
    (onError_with_sink_then_finished sampleAccepted .undefined .undefined
      sampleAccepted_reached rfl).2.2.2 rfl⟩

end ClientStream
